import Mathlib

/-!
# Bit-banged I2C master (`User/SIM_I2C/sim_i2c.c`)

A shallow embedding of the software I2C master.  The two bus lines are open-drain:
the master either releases a line (`true`) or drives it low (`false`).  What the
master reads back from a line is decided by the outside world and is supplied as
a stream of samples.  Every pin operation, every delay and every entry into a bus
primitive is appended to a trace, so that orderings and counts can be stated.

Bytes (`u8`, `uint8_t`) are natural numbers reduced `% 256` wherever the C code
can overflow.
-/

namespace SimI2C

/-! ## Data model -/

/-- The bus primitives of `sim_i2c.c`; entering one is recorded in the trace. -/
inductive Prim where
  | i2c_Start
  | i2c_Stop
  | i2c_SendByte (b : Nat)
  | i2c_ReceiveByte
  | Slave_ACK
  | Mster_ACK
  | Mster_NOACK
  deriving DecidableEq, Repr

/-- One observable step of the master. -/
inductive Ev where
  /-- Pin write `I2C_SDA_1()` (`true`, release) or `I2C_SDA_0()` (`false`, drive low). -/
  | sda (released : Bool)
  /-- Pin write `I2C_SCL_1()` (`true`, release) or `I2C_SCL_0()` (`false`, drive low). -/
  | scl (released : Bool)
  /-- One call of `i2c_Speed()`. -/
  | speed
  /-- Sample `I2C_SDA_READ()` returned `v`. -/
  | readSda (v : Bool)
  /-- Sample `I2C_SCL_READ()` returned `v`. -/
  | readScl (v : Bool)
  /-- Entry into a bus primitive. -/
  | call (p : Prim)
  /-- The value `i2c_ReceiveByte` returns. -/
  | rx (v : Nat)
  deriving DecidableEq, Repr

/-- The outside world: the level the master reads on SDA at its `k`-th sample of
SDA, and on SCL at its `k`-th sample of SCL (`true` = high). -/
structure Env where
  sdaIn : Nat → Bool
  sclIn : Nat → Bool

/-- The master side of the bus: its drive of each line (`true` = released,
`false` = driven low), how many samples of each line it has taken, and the
trace of everything it has done. -/
structure Bus where
  sda : Bool
  scl : Bool
  nSda : Nat
  nScl : Nat
  trace : List Ev
  deriving DecidableEq, Repr

/-- Caller-owned byte buffer (`u8 *data`): index to byte. -/
abbrev Buf := Nat → Nat

/-- Append one event to the trace. -/
def log (e : Ev) (s : Bus) : Bus := { s with trace := s.trace ++ [e] }

/-! ## Pin-level primitives (macros of `sim_i2c.h`) -/

/-- Modelled from the spec: the macro `I2C_SDA_1` of `sim_i2c.h` (absent);
spec 4.2 `sda_release()`: side effect only, releases SDA. -/
def I2C_SDA_1 (s : Bus) : Bus := { s with sda := true, trace := s.trace ++ [Ev.sda true] }

/-- Modelled from the spec: the macro `I2C_SDA_0` of `sim_i2c.h` (absent);
spec 4.2 `sda_drive_low()`: side effect only, drives SDA low. -/
def I2C_SDA_0 (s : Bus) : Bus := { s with sda := false, trace := s.trace ++ [Ev.sda false] }

/-- Modelled from the spec: the macro `I2C_SCL_1` of `sim_i2c.h` (absent);
spec 4.2 `scl_release()`: side effect only, releases SCL. -/
def I2C_SCL_1 (s : Bus) : Bus := { s with scl := true, trace := s.trace ++ [Ev.scl true] }

/-- Modelled from the spec: the macro `I2C_SCL_0` of `sim_i2c.h` (absent);
spec 4.2 `scl_drive_low()`: side effect only, drives SCL low. -/
def I2C_SCL_0 (s : Bus) : Bus := { s with scl := false, trace := s.trace ++ [Ev.scl false] }

/-- Modelled from the spec: the macro `I2C_SDA_READ` of `sim_i2c.h` (absent);
spec 4.2 `sda_read() -> bool`: samples the physical line, no effect on the
drive of either line.  The sample is the next one of the environment. -/
def I2C_SDA_READ (env : Env) (s : Bus) : Bool × Bus :=
  (env.sdaIn s.nSda,
   { s with nSda := s.nSda + 1, trace := s.trace ++ [Ev.readSda (env.sdaIn s.nSda)] })

/-- Modelled from the spec: the macro `I2C_SCL_READ` of `sim_i2c.h` (absent);
spec 4.2 `scl_read() -> bool`: samples the physical line, no effect on the
drive of either line.  The sample is the next one of the environment. -/
def I2C_SCL_READ (env : Env) (s : Bus) : Bool × Bus :=
  (env.sclIn s.nScl,
   { s with nScl := s.nScl + 1, trace := s.trace ++ [Ev.readScl (env.sclIn s.nScl)] })

/-! ## Timing and bus conditions -/

/-- Function `i2c_Speed`: an empty counting loop (`for (i = 0; i < 28; i++);`); it
touches no pin and is recorded as one delay unit. -/
def i2c_Speed (s : Bus) : Bus := log Ev.speed s

/-- Function `i2c_Start`. -/
def i2c_Start (s : Bus) : Bus :=
  let s := log (Ev.call Prim.i2c_Start) s
  let s := I2C_SDA_1 s
  let s := I2C_SCL_1 s
  let s := i2c_Speed s
  let s := I2C_SDA_0 s
  let s := i2c_Speed s
  let s := I2C_SCL_0 s
  i2c_Speed s

/-- Function `i2c_Stop`. -/
def i2c_Stop (s : Bus) : Bus :=
  let s := log (Ev.call Prim.i2c_Stop) s
  let s := I2C_SDA_0 s
  let s := I2C_SCL_1 s
  let s := i2c_Speed s
  let s := I2C_SDA_1 s
  i2c_Speed s

/-! ## Byte transfer -/

/-- One pass through the body of the `for` loop of `i2c_SendByte`, with loop
index `i`; the state is the remaining byte `_ucByte` and the bus. -/
def i2c_SendByte_body (i : Nat) (st : Nat × Bus) : Nat × Bus :=
  let ucByte := st.1
  let s := st.2
  let s := if ucByte &&& 0x80 ≠ 0 then I2C_SDA_1 s else I2C_SDA_0 s
  let s := i2c_Speed s
  let s := I2C_SCL_1 s
  let s := i2c_Speed s
  let s := I2C_SCL_0 s
  let s := if i = 7 then I2C_SDA_1 s else s
  let ucByte := (ucByte <<< 1) % 256
  (ucByte, i2c_Speed s)

/-- Function `i2c_SendByte`: the body runs for `i = 0, 1, ..., 7`. -/
def i2c_SendByte (ucByte : Nat) (s : Bus) : Bus :=
  ((List.range 8).foldl (fun st i => i2c_SendByte_body i st)
    (ucByte, log (Ev.call (Prim.i2c_SendByte ucByte)) s)).2

/-- One pass through the body of the `for` loop of `i2c_ReceiveByte`; the
state is the accumulated `value` and the bus. -/
def i2c_ReceiveByte_body (env : Env) (st : Nat × Bus) : Nat × Bus :=
  let value := (st.1 <<< 1) % 256
  let s := I2C_SCL_1 st.2
  let s := i2c_Speed s
  let r := I2C_SDA_READ env s
  let value := if r.1 then (value + 1) % 256 else value
  let s := I2C_SCL_0 r.2
  (value, i2c_Speed s)

/-- Function `i2c_ReceiveByte`: eight passes through the body, starting from `value = 0`. -/
def i2c_ReceiveByte (env : Env) (s : Bus) : Nat × Bus :=
  let r := (List.range 8).foldl (fun st _ => i2c_ReceiveByte_body env st)
    (0, log (Ev.call Prim.i2c_ReceiveByte) s)
  (r.1, log (Ev.rx r.1) r.2)

/-- The `while (I2C_SDA_READ())` loop of `Slave_ACK`, with the counter
`ucErrTime` (`u8`).  `fuel` bounds the number of times the loop condition is
evaluated; `none` means the fuel ran out. -/
def Slave_ACK_loop (env : Env) : Nat → Bus → Nat → Option (Nat × Bus)
  | 0, _, _ => none
  | fuel + 1, s, ucErrTime =>
    let r := I2C_SDA_READ env s
    if r.1 then
      let ucErrTime := (ucErrTime + 1) % 256
      if ucErrTime > 250 then
        some (1, i2c_Stop r.2)
      else
        Slave_ACK_loop env fuel r.2 ucErrTime
    else
      some (0, I2C_SCL_0 r.2)

/-- Function `Slave_ACK`.  The counter is a `u8`, so 256 evaluations of the loop
condition are allowed for; `Slave_ACK_loop_fuel` shows that 251 always
suffice and that more fuel never changes the result. -/
def Slave_ACK (env : Env) (s : Bus) : Option (Nat × Bus) :=
  let s := log (Ev.call Prim.Slave_ACK) s
  let s := I2C_SDA_1 s
  let s := i2c_Speed s
  let s := I2C_SCL_1 s
  let s := i2c_Speed s
  Slave_ACK_loop env 256 s 0

/-- Function `Mster_ACK`. -/
def Mster_ACK (s : Bus) : Bus :=
  let s := log (Ev.call Prim.Mster_ACK) s
  let s := I2C_SCL_0 s
  let s := i2c_Speed s
  let s := I2C_SDA_0 s
  let s := i2c_Speed s
  let s := I2C_SCL_1 s
  let s := i2c_Speed s
  let s := I2C_SCL_0 s
  let s := i2c_Speed s
  I2C_SDA_1 s

/-- Function `Mster_NOACK`. -/
def Mster_NOACK (s : Bus) : Bus :=
  let s := log (Ev.call Prim.Mster_NOACK) s
  let s := I2C_SCL_0 s
  let s := i2c_Speed s
  let s := I2C_SDA_1 s
  let s := i2c_Speed s
  let s := I2C_SCL_1 s
  let s := i2c_Speed s
  let s := I2C_SCL_0 s
  let s := i2c_Speed s
  I2C_SDA_1 s

/-! ## Transactions -/

/-- Function `i2c_CheckDevice`.  The macro `I2C_WR` of `sim_i2c.h` is absent and is
taken as a parameter.  `&&` evaluates its right operand only when the left one
is non-zero, so SCL is sampled only when SDA read high. -/
def i2c_CheckDevice (env : Env) (I2C_WR : Nat) (Address : Nat) (s : Bus) :
    Option (Nat × Bus) :=
  let a := I2C_SDA_READ env s
  let b := if a.1 then I2C_SCL_READ env a.2 else (false, a.2)
  if a.1 && b.1 then
    let s := i2c_Start b.2
    let s := i2c_SendByte ((Address ||| I2C_WR) % 256) s
    match Slave_ACK env s with
    | none => none
    | some (ucAck, s) =>
      let s := i2c_Stop s
      some (ucAck, s)
  else
    some (1, b.2)

/-- Function `I2C_WriteByte`. -/
def I2C_WriteByte (env : Env) (address data_value : Nat) (s : Bus) : Option Bus := do
  let s := i2c_Start s
  let s := i2c_SendByte 0xa0 s
  let r ← Slave_ACK env s
  let s := i2c_SendByte address r.2
  let r ← Slave_ACK env s
  let s := i2c_SendByte data_value r.2
  let r ← Slave_ACK env s
  some (i2c_Stop r.2)

/-- Function `I2C_ReadByte`. -/
def I2C_ReadByte (env : Env) (address : Nat) (s : Bus) : Option (Nat × Bus) := do
  let s := i2c_Start s
  let s := i2c_SendByte 0xa0 s
  let r ← Slave_ACK env s
  let s := i2c_SendByte address r.2
  let r ← Slave_ACK env s
  let s := i2c_Start r.2
  let s := i2c_SendByte 0xa1 s
  let r ← Slave_ACK env s
  let v := i2c_ReceiveByte env r.2
  let s := Mster_NOACK v.2
  let s := i2c_Stop s
  some (v.1, s)

/-- The `for (count = 0; count < length; count++)` loop of `I2C_WriteBytes`;
`count` is a `u8`.  `fuel` bounds the number of times the loop condition is
evaluated; `none` means the fuel ran out. -/
def I2C_WriteBytes_loop (env : Env) (length : Nat) (data : Buf) :
    Nat → Nat → Bus → Option (Nat × Bus)
  | 0, _, _ => none
  | fuel + 1, count, s =>
    if count < length then
      let s := i2c_SendByte (data count) s
      match Slave_ACK env s with
      | none => none
      | some r => I2C_WriteBytes_loop env length data fuel ((count + 1) % 256) r.2
    else
      some (count, s)

/-- Function `I2C_WriteBytes`; the buffer is only read.  `count` is a `u8`, so the loop
condition is evaluated at most 256 times when the loop ends at all. -/
def I2C_WriteBytes (env : Env) (dev reg length : Nat) (data : Buf) (s : Bus) :
    Option (Nat × Bus) := do
  let s := i2c_Start s
  let s := i2c_SendByte dev s
  let r ← Slave_ACK env s
  let s := i2c_SendByte reg r.2
  let r ← Slave_ACK env s
  let r ← I2C_WriteBytes_loop env length data 256 0 r.2
  let s := i2c_Stop r.2
  some (1, s)

/-- The `for (count = 0; count < length; count++)` loop of `I2C_ReadBytes`;
`count` is a `u8`, and `count != length - 1` is evaluated on `int`.  `fuel`
bounds the number of times the loop condition is evaluated; `none` means the
fuel ran out. -/
def I2C_ReadBytes_loop (env : Env) (length : Nat) :
    Nat → Nat → Bus → Buf → Option (Nat × Bus × Buf)
  | 0, _, _, _ => none
  | fuel + 1, count, s, data =>
    if count < length then
      if (count : Int) ≠ (length : Int) - 1 then
        let v := i2c_ReceiveByte env s
        let data := Function.update data count v.1
        let s := Mster_ACK v.2
        I2C_ReadBytes_loop env length fuel ((count + 1) % 256) s data
      else
        let v := i2c_ReceiveByte env s
        let data := Function.update data count v.1
        let s := Mster_NOACK v.2
        I2C_ReadBytes_loop env length fuel ((count + 1) % 256) s data
    else
      some (count, s, data)

/-- Function `I2C_ReadBytes`: returns `count`, the bus and the buffer.  `count` is a
`u8`, so the loop condition is evaluated at most 256 times when the loop ends
at all. -/
def I2C_ReadBytes (env : Env) (dev reg length : Nat) (data : Buf) (s : Bus) :
    Option (Nat × Bus × Buf) := do
  let s := i2c_Start s
  let s := i2c_SendByte dev s
  let r ← Slave_ACK env s
  let s := i2c_SendByte reg r.2
  let r ← Slave_ACK env s
  let s := i2c_Start r.2
  let s := i2c_SendByte ((dev + 1) % 256) s
  let r ← Slave_ACK env s
  let r ← I2C_ReadBytes_loop env length 256 0 r.2 data
  let s := i2c_Stop r.2.1
  some (r.1, s, r.2.2)

/-- Function `SIM_I2C_Init`: the GPIO configuration is outside the bus model; what
remains is the closing `i2c_Stop()`. -/
def SIM_I2C_Init (s : Bus) : Bus := i2c_Stop s

/-! ## Vocabulary for stating properties of traces -/

/-- The bus after `n` further samples of SDA that all read high. -/
def polledHigh (n : Nat) (s : Bus) : Bus :=
  { s with nSda := s.nSda + n, trace := s.trace ++ List.replicate n (Ev.readSda true) }

/-- The bus after one further sample of SDA that reads low. -/
def polledLow (s : Bus) : Bus :=
  { s with nSda := s.nSda + 1, trace := s.trace ++ [Ev.readSda false] }

/-- The events `Slave_ACK` appends before its first sample. -/
def ackPrelude : List Ev :=
  [Ev.call Prim.Slave_ACK, Ev.sda true, Ev.speed, Ev.scl true, Ev.speed]

/-- The events one `i2c_Stop` appends. -/
def stopEvents : List Ev :=
  [Ev.call Prim.i2c_Stop, Ev.sda false, Ev.scl true, Ev.speed, Ev.sda true, Ev.speed]

/-- Whether the event is a sample of SDA. -/
def isSdaRead : Ev → Bool
  | Ev.readSda _ => true
  | _ => false

/-- Whether the event is a pin drive operation (a write to SDA or SCL). -/
def isPinWrite : Ev → Bool
  | Ev.sda _ => true
  | Ev.scl _ => true
  | _ => false

/-- Number of samples of SDA in a trace. -/
def sdaSamples (t : List Ev) : Nat := t.countP isSdaRead

/-- Number of entries into `i2c_Stop` in a trace. -/
def stops (t : List Ev) : Nat := t.count (Ev.call Prim.i2c_Stop)

/-- The bus primitives entered in a trace, in order. -/
def calls (t : List Ev) : List Prim :=
  t.filterMap (fun e => match e with
    | Ev.call p => some p
    | _ => none)

/-- The bytes returned by `i2c_ReceiveByte` in a trace, in order. -/
def received (t : List Ev) : List Nat :=
  t.filterMap (fun e => match e with
    | Ev.rx v => some v
    | _ => none)

/-- The events of one pass of the send loop that puts level `v` on SDA, up to
the falling edge of SCL. -/
def txBitEvents (v : Bool) : List Ev :=
  [Ev.sda v, Ev.speed, Ev.scl true, Ev.speed, Ev.scl false]

/-- The events one `i2c_SendByte b` appends: bit 7 first, bit 0 last, then the
release of SDA. -/
def txEvents (b : Nat) : List Ev :=
  [Ev.call (Prim.i2c_SendByte b)]
    ++ txBitEvents (b.testBit 7) ++ [Ev.speed]
    ++ txBitEvents (b.testBit 6) ++ [Ev.speed]
    ++ txBitEvents (b.testBit 5) ++ [Ev.speed]
    ++ txBitEvents (b.testBit 4) ++ [Ev.speed]
    ++ txBitEvents (b.testBit 3) ++ [Ev.speed]
    ++ txBitEvents (b.testBit 2) ++ [Ev.speed]
    ++ txBitEvents (b.testBit 1) ++ [Ev.speed]
    ++ txBitEvents (b.testBit 0) ++ [Ev.sda true, Ev.speed]

/-- The events of one pass of the receive loop that samples `v`. -/
def rxBitEvents (v : Bool) : List Ev :=
  [Ev.scl true, Ev.speed, Ev.readSda v, Ev.scl false, Ev.speed]

/-- The byte assembled from the eight samples of SDA number `m, ..., m + 7`,
the first one being the most significant bit. -/
def rxValue (env : Env) (m : Nat) : Nat :=
  (env.sdaIn m).toNat * 128 + (env.sdaIn (m + 1)).toNat * 64 + (env.sdaIn (m + 2)).toNat * 32
    + (env.sdaIn (m + 3)).toNat * 16 + (env.sdaIn (m + 4)).toNat * 8
    + (env.sdaIn (m + 5)).toNat * 4 + (env.sdaIn (m + 6)).toNat * 2 + (env.sdaIn (m + 7)).toNat

/-- The events one `i2c_ReceiveByte` appends when its first sample is number `m`. -/
def rxEvents (env : Env) (m : Nat) : List Ev :=
  [Ev.call Prim.i2c_ReceiveByte]
    ++ rxBitEvents (env.sdaIn m) ++ rxBitEvents (env.sdaIn (m + 1))
    ++ rxBitEvents (env.sdaIn (m + 2)) ++ rxBitEvents (env.sdaIn (m + 3))
    ++ rxBitEvents (env.sdaIn (m + 4)) ++ rxBitEvents (env.sdaIn (m + 5))
    ++ rxBitEvents (env.sdaIn (m + 6)) ++ rxBitEvents (env.sdaIn (m + 7))
    ++ [Ev.rx (rxValue env m)]

/-- Whether the event is a write to SDA. -/
def isSdaWrite : Ev → Bool
  | Ev.sda _ => true
  | _ => false

/-- Whether the event is a release of SCL (the rising edge of a clock pulse
generated by the master). -/
def isSclRelease : Ev → Bool
  | Ev.scl true => true
  | _ => false

/-- Number of releases of SCL in a trace. -/
def sclPulses (t : List Ev) : Nat := t.countP isSclRelease

/-- The master's drive of SDA at each release of SCL (each rising clock edge
the master generates) in a trace, in order; `d` is the drive of SDA before the
trace. -/
def sdaAtClockHigh : Bool → List Ev → List Bool
  | _, [] => []
  | _, Ev.sda v :: t => sdaAtClockHigh v t
  | d, Ev.scl true :: t => d :: sdaAtClockHigh d t
  | d, _ :: t => sdaAtClockHigh d t

/-- The events one `i2c_Start` appends. -/
def startEvents : List Ev :=
  [Ev.call Prim.i2c_Start, Ev.sda true, Ev.scl true, Ev.speed, Ev.sda false, Ev.speed,
   Ev.scl false, Ev.speed]

/-- The events one `Mster_ACK` appends. -/
def mackEvents : List Ev :=
  [Ev.call Prim.Mster_ACK, Ev.scl false, Ev.speed, Ev.sda false, Ev.speed, Ev.scl true,
   Ev.speed, Ev.scl false, Ev.speed, Ev.sda true]

/-- The events one `Mster_NOACK` appends. -/
def nackEvents : List Ev :=
  [Ev.call Prim.Mster_NOACK, Ev.scl false, Ev.speed, Ev.sda true, Ev.speed, Ev.scl true,
   Ev.speed, Ev.scl false, Ev.speed, Ev.sda true]

/-- The events of an acknowledge wait whose first low sample is the one at
index `k`. -/
def ackOkEvents (k : Nat) : List Ev :=
  ackPrelude ++ List.replicate k (Ev.readSda true) ++ [Ev.readSda false, Ev.scl false]

/-- The events of an acknowledge wait that times out. -/
def ackFailEvents : List Ev :=
  ackPrelude ++ List.replicate 251 (Ev.readSda true) ++ stopEvents

/-- The bus after an acknowledge wait whose first low sample is the one at
index `k`. -/
def ackOk (k : Nat) (s : Bus) : Bus :=
  { sda := true, scl := false, nSda := s.nSda + (k + 1), nScl := s.nScl,
    trace := s.trace ++ ackOkEvents k }

/-- The bus after an acknowledge wait that times out. -/
def ackFail (s : Bus) : Bus :=
  { sda := true, scl := true, nSda := s.nSda + 251, nScl := s.nScl,
    trace := s.trace ++ ackFailEvents }

/-- Whether the event is the entry into `Slave_ACK`. -/
def isAckEntry : Ev → Bool
  | Ev.call Prim.Slave_ACK => true
  | _ => false

/-- Number of samples of SDA from the first entry into `Slave_ACK` on: the
polls of the acknowledge wait. -/
def ackPolls (t : List Ev) : Nat := sdaSamples (t.dropWhile (fun e => !isAckEntry e))

/-- The events of an acknowledge wait: `some k` when the first low sample is
the one at index `k`, `none` when the wait times out. -/
def ackEvents : Option Nat → List Ev
  | some k => ackOkEvents k
  | none => ackFailEvents

/-- The number of samples of SDA an acknowledge wait takes. -/
def ackSamples : Option Nat → Nat
  | some k => k + 1
  | none => 251

/-- The value an acknowledge wait returns. -/
def ackResult : Option Nat → Nat
  | some _ => 0
  | none => 1

/-- The bus after an acknowledge wait. -/
def ackDone (o : Option Nat) (s : Bus) : Bus :=
  { sda := true, scl := o.isNone, nSda := s.nSda + ackSamples o, nScl := s.nScl,
    trace := s.trace ++ ackEvents o }

/-- The events of `k` passes of the read loop of `I2C_ReadBytes`, the first with
loop counter `count` and first sample number `m`: each pass receives a byte and
answers with a NACK when it is the last one (`count + 1 = length`) and an ACK
otherwise. -/
def readLoopEvents (env : Env) (length : Nat) : Nat → Nat → Nat → List Ev
  | 0, _, _ => []
  | k + 1, count, m =>
    rxEvents env m ++ (if count + 1 = length then nackEvents else mackEvents)
      ++ readLoopEvents env length k (count + 1) (m + 8)

/-- The buffer after `k` passes of the read loop, the first with loop counter
`count` and first sample number `m`. -/
def readLoopData (env : Env) : Nat → Nat → Nat → Buf → Buf
  | 0, _, _, data => data
  | k + 1, count, m, data =>
    readLoopData env k (count + 1) (m + 8) (Function.update data count (rxValue env m))

/-- The acknowledge pattern of a read of `n` bytes: each byte but the last is
received and answered with `Mster_ACK`, the last one with `Mster_NOACK`. -/
def ackPattern : Nat → List Prim
  | 0 => []
  | 1 => [Prim.i2c_ReceiveByte, Prim.Mster_NOACK]
  | n + 2 => [Prim.i2c_ReceiveByte, Prim.Mster_ACK] ++ ackPattern (n + 1)

/-- Whether the primitive receives a byte or answers one. -/
def isRxAck : Prim → Bool
  | Prim.i2c_ReceiveByte => true
  | Prim.Mster_ACK => true
  | Prim.Mster_NOACK => true
  | _ => false

/-- An environment for the read example: SDA reads low on the three acknowledge
waits, then carries the bits of 0x11, 0x22 and 0x33, first bit first. -/
def readExampleEnv : Env :=
  ⟨fun k => [false, false, false,
      false, false, false, true, false, false, false, true,
      false, false, true, false, false, false, true, false,
      false, false, true, true, false, false, true, true].getD k true,
   fun _ => true⟩

/-- Search for the first low sample of SDA among the samples number
`m + k, ..., m + k + n - 1`; the result is its offset from `m`. -/
def firstLow (env : Env) (m : Nat) : Nat → Nat → Option Nat
  | 0, _ => none
  | n + 1, k => if env.sdaIn (m + k) then firstLow env m n (k + 1) else some k

/-- The outcome of an acknowledge wait whose first sample is number `m`:
`some k` when the first low sample among the 251 is the one at offset `k`,
`none` when all 251 read high (timeout). -/
def ackOutcome (env : Env) (m : Nat) : Option Nat := firstLow env m 251 0

/-- One step of a transaction: a call of one of the bus primitives. -/
inductive Step where
  | start
  | stop
  | send (b : Nat)
  | ack
  | recv
  | mack
  | nack
  deriving DecidableEq, Repr

/-- The primitive a step calls. -/
def Step.prim : Step → Prim
  | Step.start => Prim.i2c_Start
  | Step.stop => Prim.i2c_Stop
  | Step.send b => Prim.i2c_SendByte b
  | Step.ack => Prim.Slave_ACK
  | Step.recv => Prim.i2c_ReceiveByte
  | Step.mack => Prim.Mster_ACK
  | Step.nack => Prim.Mster_NOACK

/-- The events a step appends when the next sample of SDA is number `m`. -/
def stepEvents (env : Env) (m : Nat) : Step → List Ev
  | Step.start => startEvents
  | Step.stop => stopEvents
  | Step.send b => txEvents b
  | Step.ack => ackEvents (ackOutcome env m)
  | Step.recv => rxEvents env m
  | Step.mack => mackEvents
  | Step.nack => nackEvents

/-- The number of samples of SDA a step takes when the next sample is number `m`. -/
def stepSamples (env : Env) (m : Nat) : Step → Nat
  | Step.ack => ackSamples (ackOutcome env m)
  | Step.recv => 8
  | _ => 0

/-- Whether the step is an acknowledge wait that times out, when the next
sample of SDA is number `m`. -/
def stepTimesOut (env : Env) (m : Nat) : Step → Bool
  | Step.ack => (ackOutcome env m).isNone
  | _ => false

/-- The events a sequence of steps appends when the next sample of SDA is
number `m`. -/
def scriptEvents (env : Env) : Nat → List Step → List Ev
  | _, [] => []
  | m, st :: rest => stepEvents env m st ++ scriptEvents env (m + stepSamples env m st) rest

/-- The number of samples of SDA a sequence of steps takes. -/
def scriptSamples (env : Env) : Nat → List Step → Nat
  | _, [] => 0
  | m, st :: rest => stepSamples env m st + scriptSamples env (m + stepSamples env m st) rest

/-- The number of acknowledge waits of a sequence of steps that time out. -/
def scriptTimeouts (env : Env) : Nat → List Step → Nat
  | _, [] => 0
  | m, st :: rest =>
    (if stepTimesOut env m st then 1 else 0) + scriptTimeouts env (m + stepSamples env m st) rest

/-- The steps of `i2c_CheckDevice` on an idle bus, `x` being the byte sent. -/
def checkScript (x : Nat) : List Step := [Step.start, Step.send x, Step.ack, Step.stop]

/-- The steps of `I2C_WriteByte`. -/
def writeByteScript (address data_value : Nat) : List Step :=
  [Step.start, Step.send 0xa0, Step.ack, Step.send address, Step.ack,
   Step.send data_value, Step.ack, Step.stop]

/-- The steps of `I2C_ReadByte`. -/
def readByteScript (address : Nat) : List Step :=
  [Step.start, Step.send 0xa0, Step.ack, Step.send address, Step.ack,
   Step.start, Step.send 0xa1, Step.ack, Step.recv, Step.nack, Step.stop]

/-- The steps of `k` passes of the write loop of `I2C_WriteBytes`, the first
with loop counter `count`. -/
def writeLoopScript (data : Buf) : Nat → Nat → List Step
  | 0, _ => []
  | k + 1, count => Step.send (data count) :: Step.ack :: writeLoopScript data k (count + 1)

/-- The steps of `I2C_WriteBytes`. -/
def writeBytesScript (dev reg n : Nat) (data : Buf) : List Step :=
  [Step.start, Step.send dev, Step.ack, Step.send reg, Step.ack]
    ++ writeLoopScript data n 0 ++ [Step.stop]

/-- The steps of the last `k` passes of the read loop of `I2C_ReadBytes`. -/
def readLoopScript : Nat → List Step
  | 0 => []
  | 1 => [Step.recv, Step.nack]
  | k + 2 => Step.recv :: Step.mack :: readLoopScript (k + 1)

/-- The steps of `I2C_ReadBytes`. -/
def readBytesScript (dev reg n : Nat) : List Step :=
  [Step.start, Step.send dev, Step.ack, Step.send reg, Step.ack,
   Step.start, Step.send ((dev + 1) % 256), Step.ack]
    ++ readLoopScript n ++ [Step.stop]

/-- Whether the event is the entry into `i2c_Start`. -/
def isStartEntry : Ev → Bool
  | Ev.call Prim.i2c_Start => true
  | _ => false

/-- Number of entries into `i2c_Start` in a trace. -/
def starts (t : List Ev) : Nat := t.countP isStartEntry

/-- The bytes passed to `i2c_SendByte` in a trace, in order. -/
def sent (t : List Ev) : List Nat :=
  t.filterMap (fun e => match e with
    | Ev.call (Prim.i2c_SendByte b) => some b
    | _ => none)

/-- Whether the primitive is `i2c_Stop`. -/
def isStopCall : Prim → Bool
  | Prim.i2c_Stop => true
  | _ => false

/-- The byte a step passes to `i2c_SendByte`, if it is a send step. -/
def Step.sentByte : Step → Option Nat
  | Step.send b => some b
  | _ => none

/-- Whether the step is a STOP. -/
def Step.isStop : Step → Bool
  | Step.stop => true
  | _ => false

/-- Whether the step is a START. -/
def Step.isStart : Step → Bool
  | Step.start => true
  | _ => false

/-- A bus condition: a change of SDA while SCL is high. -/
inductive Cond where
  | start
  | stop
  deriving DecidableEq, Repr

/-- The bus conditions the master's own pin writes produce in a trace, in order:
a START when it drives SDA low while it has SCL released and had SDA released, a
STOP when it releases SDA while it has SCL released and had SDA driven low.
`sda` and `scl` are the master's drive before the trace. -/
def busConditions : Bool → Bool → List Ev → List Cond
  | _, _, [] => []
  | sda, scl, e :: t =>
    match e with
    | Ev.sda v =>
      (if scl && sda && !v then [Cond.start] else if scl && !sda && v then [Cond.stop] else [])
        ++ busConditions v scl t
    | Ev.scl v => busConditions sda v t
    | _ => busConditions sda scl t

/-- Number of writes to SDA made while the master has SCL released; `scl` is the
master's drive of SCL before the trace. -/
def sdaWritesClockHigh : Bool → List Ev → Nat
  | _, [] => 0
  | scl, e :: t =>
    match e with
    | Ev.sda _ => (if scl then 1 else 0) + sdaWritesClockHigh scl t
    | Ev.scl v => sdaWritesClockHigh v t
    | _ => sdaWritesClockHigh scl t

/-- Whether the step is an acknowledge wait. -/
def Step.isAck : Step → Bool
  | Step.ack => true
  | _ => false

/-- A trace is framed when the first primitive it enters is `i2c_Start`, the last
one is `i2c_Stop`, and `i2c_Stop` is entered exactly once. -/
def Framed (t : List Ev) : Prop :=
  (calls t).head? = some Prim.i2c_Start ∧ stops t = 1 ∧
    (calls t).getLast? = some Prim.i2c_Stop

/-- Modelled from the spec: what the simulated peripheral of the round trip law is
doing. -/
inductive PMode where
  | idle
  | addr
  | reg
  | wdata
  | rdata
  deriving DecidableEq, Repr

/-- Modelled from the spec: the simulated register-addressed I2C peripheral of the
round trip law, watching the two lines.
`msda`, `mscl`: the master's drive as last seen; `out`: the peripheral's own
drive of SDA (`true` = released); `cnt`: bits of the current byte already
clocked (8: the byte is complete, 9: the peripheral is giving its ACK); `sh`:
the bits received so far; `ptr`: the register pointer; `mem`: the registers. -/
structure Periph where
  msda : Bool
  mscl : Bool
  out : Bool
  mode : PMode
  cnt : Nat
  sh : Nat
  ptr : Nat
  mem : Nat → Nat

/-- The level of SDA on the wire: low as soon as the master or the peripheral
drives it low. -/
def Periph.line (p : Periph) : Bool := p.msda && p.out

/-- Modelled from the spec: the peripheral at the falling clock edge that ends the
eighth bit of a received byte: it answers on `dev` (write) and on `dev + 1` (read),
takes the next byte as register pointer, stores the following bytes at consecutive
registers, and acknowledges each byte it takes by driving SDA low. -/
def byteDone (dev : Nat) (p : Periph) : Periph :=
  match p.mode with
  | PMode.addr =>
    if p.sh = dev then { p with mode := PMode.reg, out := false, cnt := 9 }
    else if p.sh = (dev + 1) % 256 then { p with mode := PMode.rdata, out := false, cnt := 9 }
    else { p with mode := PMode.idle, cnt := 0 }
  | PMode.reg => { p with mode := PMode.wdata, ptr := p.sh, out := false, cnt := 9 }
  | PMode.wdata =>
    { p with mem := Function.update p.mem p.ptr p.sh, ptr := p.ptr + 1, out := false, cnt := 9 }
  | _ => p

/-- Modelled from the spec: the peripheral at a rising clock edge: while receiving
it shifts in the level of SDA; in the acknowledge slot of a byte it has sent it
stops sending when SDA is high (NACK). -/
def onRising (p : Periph) : Periph :=
  match p.mode with
  | PMode.idle => p
  | PMode.rdata => if p.cnt = 8 then (if p.line then { p with mode := PMode.idle } else p) else p
  | _ => if p.cnt < 8 then { p with sh := 2 * p.sh + p.line.toNat, cnt := p.cnt + 1 } else p

/-- Modelled from the spec: the peripheral at a falling clock edge: while receiving
it handles a complete byte and releases SDA after its ACK; while sending it puts
the next bit of the register at the pointer on SDA, most significant bit first,
releases SDA for the master's acknowledge after the eighth bit, and moves to the
next register after an ACK. -/
def onFalling (dev : Nat) (p : Periph) : Periph :=
  match p.mode with
  | PMode.idle => p
  | PMode.rdata =>
    if p.cnt = 9 then { p with cnt := 0, out := (p.mem p.ptr).testBit 7 }
    else if p.cnt < 7 then { p with cnt := p.cnt + 1, out := (p.mem p.ptr).testBit (6 - p.cnt) }
    else if p.cnt = 7 then { p with cnt := 8, out := true }
    else { p with ptr := p.ptr + 1, cnt := 0, out := (p.mem (p.ptr + 1)).testBit 7 }
  | _ =>
    if p.cnt = 8 then byteDone dev p
    else if p.cnt = 9 then { p with cnt := 0, sh := 0, out := true }
    else p

/-- Modelled from the spec: the peripheral's reaction to one event of the master: a
fall of SDA while SCL is high is a START, a rise of SDA while SCL is high is a
STOP, and changes of SCL are clock edges. -/
def pstep (dev : Nat) (p : Periph) : Ev → Periph
  | Ev.sda v =>
    if p.mscl && p.line && !(v && p.out) then
      { p with msda := v, mode := PMode.addr, cnt := 0, sh := 0, out := true }
    else if p.mscl && !p.line && (v && p.out) then
      { p with msda := v, mode := PMode.idle, cnt := 0, sh := 0, out := true }
    else { p with msda := v }
  | Ev.scl v =>
    if !p.mscl && v then { onRising p with mscl := v }
    else if p.mscl && !v then { onFalling dev p with mscl := v }
    else p
  | _ => p

/-- The peripheral after a trace of the master. -/
def prun (dev : Nat) (p : Periph) (t : List Ev) : Periph := t.foldl (pstep dev) p

/-- Whether every sample of SDA in the trace is the level of the wire at that
moment, with the peripheral reacting to the master as the trace goes. -/
def consistent (dev : Nat) : Periph → List Ev → Bool
  | _, [] => true
  | p, e :: t =>
    match e with
    | Ev.readSda v => (v == p.line) && consistent dev p t
    | _ => consistent dev (pstep dev p e) t

/-- The peripheral before a transaction: not addressed, SDA released. -/
def periphIdle (s : Bus) (ptr : Nat) (mem : Nat → Nat) : Periph :=
  { msda := s.sda, mscl := s.scl, out := true, mode := PMode.idle, cnt := 0, sh := 0,
    ptr := ptr, mem := mem }

/-- The registers after `k` passes of the write loop, the first with loop counter
`count` and register pointer `q`. -/
def writeMem (data : Buf) : Nat → Nat → Nat → (Nat → Nat) → (Nat → Nat)
  | 0, _, _, f => f
  | k + 1, count, q, f => writeMem data k (count + 1) (q + 1) (Function.update f q (data count))

/-- An environment for the round trip example: SDA reads low on the five
acknowledge waits of the write and the three of the read, then carries the bits of
0x11, 0x22 and 0x33, first bit first. -/
def roundTripEnv : Env :=
  ⟨fun k => [false, false, false, false, false, false, false, false,
      false, false, false, true, false, false, false, true,
      false, false, true, false, false, false, true, false,
      false, false, true, true, false, false, true, true].getD k true,
   fun _ => true⟩

/-! ## The acknowledge wait -/

/-- When the next `n + 1` samples read high and the counter stands at `250 - n`,
the loop samples `n + 1` times, calls `i2c_Stop` and returns 1. -/
theorem Slave_ACK_loop_timeout (env : Env) :
    ∀ (n fuel : Nat) (s : Bus) (u : Nat), u + n = 250 → n < fuel →
      (∀ k, k ≤ n → env.sdaIn (s.nSda + k) = true) →
      Slave_ACK_loop env fuel s u = some (1, i2c_Stop (polledHigh (n + 1) s)) := by
  intro n
  induction n with
  | zero =>
    intro fuel s u hu hf h
    obtain ⟨f, rfl⟩ : ∃ f, fuel = f + 1 := ⟨fuel - 1, by omega⟩
    have h0 := h 0 (le_refl 0)
    simp only [Nat.add_zero] at h0 hu
    subst hu
    simp [Slave_ACK_loop, I2C_SDA_READ, h0, polledHigh]
  | succ n ih =>
    intro fuel s u hu hf h
    obtain ⟨f, rfl⟩ : ∃ f, fuel = f + 1 := ⟨fuel - 1, by omega⟩
    have h0 := h 0 (Nat.zero_le _)
    simp only [Nat.add_zero] at h0
    have hmod : (u + 1) % 256 = u + 1 := Nat.mod_eq_of_lt (by omega)
    have hle : ¬ (u + 1 > 250) := by omega
    have hrec := ih f (I2C_SDA_READ env s).2 (u + 1) (by omega) (by omega)
      (by
        intro k hk
        have := h (k + 1) (by omega)
        simpa [I2C_SDA_READ, Nat.add_assoc, Nat.add_comm 1 k] using this)
    rw [Slave_ACK_loop]
    simp only [I2C_SDA_READ, h0, if_true, hmod, hle, if_false] at hrec ⊢
    rw [hrec]
    simp [polledHigh, List.replicate_succ, Nat.add_assoc, Nat.add_comm 1]

/-- When the next `k` samples read high and the one after reads low, with the
counter low enough not to time out, the loop samples `k + 1` times, drives SCL
low and returns 0. -/
theorem Slave_ACK_loop_ack (env : Env) :
    ∀ (k fuel : Nat) (s : Bus) (u : Nat), u + k ≤ 250 → k < fuel →
      (∀ j, j < k → env.sdaIn (s.nSda + j) = true) →
      env.sdaIn (s.nSda + k) = false →
      Slave_ACK_loop env fuel s u = some (0, I2C_SCL_0 (polledLow (polledHigh k s))) := by
  intro k
  induction k with
  | zero =>
    intro fuel s u _ hf _ hlow
    obtain ⟨f, rfl⟩ : ∃ f, fuel = f + 1 := ⟨fuel - 1, by omega⟩
    simp only [Nat.add_zero] at hlow
    simp [Slave_ACK_loop, I2C_SDA_READ, hlow, polledHigh, polledLow]
  | succ k ih =>
    intro fuel s u hu hf hhigh hlow
    obtain ⟨f, rfl⟩ : ∃ f, fuel = f + 1 := ⟨fuel - 1, by omega⟩
    have h0 := hhigh 0 (Nat.succ_pos k)
    simp only [Nat.add_zero] at h0
    have hmod : (u + 1) % 256 = u + 1 := Nat.mod_eq_of_lt (by omega)
    have hle : ¬ (u + 1 > 250) := by omega
    have hrec := ih f (I2C_SDA_READ env s).2 (u + 1) (by omega) (by omega)
      (by
        intro j hj
        have := hhigh (j + 1) (by omega)
        simpa [I2C_SDA_READ, Nat.add_assoc, Nat.add_comm 1 j] using this)
      (by simpa [I2C_SDA_READ, Nat.add_assoc, Nat.add_comm 1 k] using hlow)
    rw [Slave_ACK_loop]
    simp only [I2C_SDA_READ, h0, if_true, hmod, hle, if_false] at hrec ⊢
    rw [hrec]
    simp [polledHigh, polledLow, List.replicate_succ, Nat.add_assoc, Nat.add_comm 1]

/-- Either the next 251 samples all read high, or there is a first low one
among them. -/
theorem first_low_or_all_high (f : Nat → Bool) :
    (∀ k, k < 251 → f k = true) ∨
    ∃ k, k < 251 ∧ (∀ j, j < k → f j = true) ∧ f k = false := by
  by_cases h : ∃ k, k < 251 ∧ f k = false
  · right
    refine ⟨Nat.find h, (Nat.find_spec h).1, ?_, (Nat.find_spec h).2⟩
    intro j hj
    have hmin := Nat.find_min h hj
    have hlt : j < 251 := lt_trans hj (Nat.find_spec h).1
    cases hfj : f j with
    | true => rfl
    | false => exact absurd ⟨hlt, hfj⟩ hmin
  · left
    intro k hk
    cases hfk : f k with
    | true => rfl
    | false => exact absurd ⟨k, hk, hfk⟩ h

/-- Any fuel of at least 251 gives the loop started at counter 0 a result, and
the same one: the loop of `Slave_ACK` always ends within 251 samples. -/
theorem Slave_ACK_loop_fuel (env : Env) (s : Bus) (fuel : Nat) (hf : 251 ≤ fuel) :
    Slave_ACK_loop env fuel s 0 = Slave_ACK_loop env 251 s 0 ∧
    ∃ r, Slave_ACK_loop env fuel s 0 = some r := by
  rcases first_low_or_all_high (fun k => env.sdaIn (s.nSda + k)) with h | ⟨k, hk, hhigh, hlow⟩
  · have h1 := Slave_ACK_loop_timeout env 250 fuel s 0 (by omega) (by omega)
      (fun k hk => h k (by omega))
    have h2 := Slave_ACK_loop_timeout env 250 251 s 0 (by omega) (by omega)
      (fun k hk => h k (by omega))
    exact ⟨h1.trans h2.symm, _, h1⟩
  · have h1 := Slave_ACK_loop_ack env k fuel s 0 (by omega) (by omega) hhigh hlow
    have h2 := Slave_ACK_loop_ack env k 251 s 0 (by omega) (by omega) hhigh hlow
    exact ⟨h1.trans h2.symm, _, h1⟩

/-- The result of `Slave_ACK` when the next 251 samples of SDA read high. -/
theorem Slave_ACK_timeout_eq (env : Env) (s : Bus)
    (h : ∀ k, k < 251 → env.sdaIn (s.nSda + k) = true) :
    Slave_ACK env s = some (1,
      { sda := true, scl := true, nSda := s.nSda + 251, nScl := s.nScl,
        trace := s.trace ++ ackPrelude ++ List.replicate 251 (Ev.readSda true) ++ stopEvents }) := by
  unfold Slave_ACK
  simp only []
  have hloop := Slave_ACK_loop_timeout env 250 256
    (i2c_Speed (I2C_SCL_1 (i2c_Speed (I2C_SDA_1 (log (Ev.call Prim.Slave_ACK) s))))) 0
    (by omega) (by omega)
    (fun k hk => by
      simpa [log, I2C_SDA_1, I2C_SCL_1, i2c_Speed] using h k (by omega))
  rw [show (250 : Nat) + 1 = 251 from rfl] at hloop
  rw [hloop]
  simp only [polledHigh]
  generalize List.replicate 251 (Ev.readSda true) = l
  simp [i2c_Stop, log, I2C_SDA_1, I2C_SDA_0, I2C_SCL_1, i2c_Speed, ackPrelude, stopEvents]

/-- The result of `Slave_ACK` when the first low sample of SDA is the one at
index `k < 251` (the `k` samples before it read high). -/
theorem Slave_ACK_ack_eq (env : Env) (s : Bus) (k : Nat) (hk : k < 251)
    (hhigh : ∀ j, j < k → env.sdaIn (s.nSda + j) = true)
    (hlow : env.sdaIn (s.nSda + k) = false) :
    Slave_ACK env s = some (0,
      { sda := true, scl := false, nSda := s.nSda + (k + 1), nScl := s.nScl,
        trace := s.trace ++ ackPrelude ++ List.replicate k (Ev.readSda true)
          ++ [Ev.readSda false, Ev.scl false] }) := by
  unfold Slave_ACK
  simp only []
  rw [Slave_ACK_loop_ack env k 256 _ 0 (by omega) (by omega)
    (fun j hj => by
      simpa [log, I2C_SDA_1, I2C_SCL_1, i2c_Speed] using hhigh j hj)
    (by simpa [log, I2C_SDA_1, I2C_SCL_1, i2c_Speed] using hlow)]
  simp [polledHigh, polledLow, log, I2C_SDA_1, I2C_SCL_0, I2C_SCL_1, i2c_Speed, ackPrelude,
    Nat.add_assoc]

/-- Samples of SDA in the trace of a timed-out acknowledge wait. -/
theorem sdaSamples_timeout_trace (n : Nat) (t : List Ev) :
    sdaSamples (t ++ ackPrelude ++ List.replicate n (Ev.readSda true) ++ stopEvents)
      = sdaSamples t + n := by
  simp [sdaSamples, List.countP_append, List.countP_replicate, ackPrelude, stopEvents, isSdaRead]

/-- Samples of SDA in the trace of a successful acknowledge wait. -/
theorem sdaSamples_ack_trace (k : Nat) (t : List Ev) :
    sdaSamples (t ++ ackPrelude ++ List.replicate k (Ev.readSda true)
      ++ [Ev.readSda false, Ev.scl false]) = sdaSamples t + (k + 1) := by
  simp [sdaSamples, List.countP_append, List.countP_replicate, ackPrelude, isSdaRead,
    Nat.add_assoc]

/-- A successful acknowledge wait does not enter `i2c_Stop`. -/
theorem stops_ack_trace (k : Nat) (t : List Ev) :
    stops (t ++ ackPrelude ++ List.replicate k (Ev.readSda true)
      ++ [Ev.readSda false, Ev.scl false]) = stops t := by
  simp [stops, List.count_append, List.count_replicate, ackPrelude]

/-- A timed-out acknowledge wait enters `i2c_Stop` once. -/
theorem stops_timeout_trace (n : Nat) (t : List Ev) :
    stops (t ++ ackPrelude ++ List.replicate n (Ev.readSda true) ++ stopEvents)
      = stops t + 1 := by
  simp [stops, List.count_append, List.count_replicate, ackPrelude, stopEvents]

/-! ## Byte transfer -/

/-- Bit 7 decides the test `_ucByte & 0x80`. -/
theorem and_0x80 (b : Nat) : (b &&& 0x80 ≠ 0) ↔ b.testBit 7 = true := by
  have h : b &&& 2 ^ 7 = if b.testBit 7 then 2 ^ 7 else 0 := by
    apply Nat.eq_of_testBit_eq
    intro i
    rw [Nat.testBit_and, Nat.testBit_two_pow]
    cases hb : b.testBit 7
    · by_cases hi : 7 = i
      · subst hi; simp [hb]
      · simp [hi]
    · rw [if_pos rfl, Nat.testBit_two_pow]
      by_cases hi : 7 = i
      · subst hi; simp [hb]
      · simp [hi]
  rw [show (0x80 : Nat) = 2 ^ 7 from rfl, h]
  cases hb : b.testBit 7 <;> simp

/-- Shifting a byte left by one moves bit `j - 1` to bit `j`. -/
theorem testBit_shl1 (x j : Nat) (h : 1 ≤ j ∧ j ≤ 7) :
    ((x <<< 1) % 256).testBit j = x.testBit (j - 1) := by
  rw [show (256 : Nat) = 2 ^ 8 from rfl, Nat.testBit_mod_two_pow, Nat.testBit_shiftLeft]
  have h1 : j < 8 := by omega
  have h2 : j ≥ 1 := h.1
  simp [h1, h2]

/-- A byte is the sum of its eight bits. -/
theorem byte_of_bits (b : Nat) (hb : b < 256) :
    (b.testBit 7).toNat * 128 + (b.testBit 6).toNat * 64 + (b.testBit 5).toNat * 32
      + (b.testBit 4).toNat * 16 + (b.testBit 3).toNat * 8 + (b.testBit 2).toNat * 4
      + (b.testBit 1).toNat * 2 + (b.testBit 0).toNat = b := by
  simp only [Nat.toNat_testBit]
  norm_num
  omega

/-- Eight shift-then-add steps on a byte, starting from 0. -/
theorem horner8 (b0 b1 b2 b3 b4 b5 b6 b7 : Bool) :
    (2 * ((2 * ((2 * ((2 * ((2 * ((2 * ((2 * ((2 * 0 + b0.toNat) % 256) + b1.toNat) % 256)
      + b2.toNat) % 256) + b3.toNat) % 256) + b4.toNat) % 256) + b5.toNat) % 256)
      + b6.toNat) % 256) + b7.toNat) % 256
    = b0.toNat * 128 + b1.toNat * 64 + b2.toNat * 32 + b3.toNat * 16 + b4.toNat * 8
      + b5.toNat * 4 + b6.toNat * 2 + b7.toNat := by
  have h0 := Bool.toNat_le b0
  have h1 := Bool.toNat_le b1
  have h2 := Bool.toNat_le b2
  have h3 := Bool.toNat_le b3
  have h4 := Bool.toNat_le b4
  have h5 := Bool.toNat_le b5
  have h6 := Bool.toNat_le b6
  have h7 := Bool.toNat_le b7
  omega

/-- One pass of the send loop. -/
theorem i2c_SendByte_body_eq (i b : Nat) (s : Bus) :
    i2c_SendByte_body i (b, s) =
      ((b <<< 1) % 256,
       { s with sda := if i = 7 then true else b.testBit 7, scl := false,
                trace := s.trace ++ txBitEvents (b.testBit 7)
                  ++ (if i = 7 then [Ev.sda true, Ev.speed] else [Ev.speed]) }) := by
  have h := and_0x80 b
  by_cases hi : i = 7 <;> cases hb : b.testBit 7 <;>
    simp [i2c_SendByte_body, I2C_SDA_1, I2C_SDA_0, I2C_SCL_1, I2C_SCL_0, i2c_Speed, log, hi, hb,
      h, txBitEvents]

/-- The whole effect of `i2c_SendByte`. -/
theorem i2c_SendByte_eq (b : Nat) (s : Bus) :
    i2c_SendByte b s = { s with sda := true, scl := false, trace := s.trace ++ txEvents b } := by
  simp only [i2c_SendByte, List.range, List.range.loop, List.foldl, i2c_SendByte_body_eq, log]
  simp (disch := decide) only [testBit_shl1]
  simp [txEvents]

/-- One pass of the receive loop. -/
theorem i2c_ReceiveByte_body_eq (env : Env) (v : Nat) (s : Bus) :
    i2c_ReceiveByte_body env (v, s) =
      ((2 * v + (env.sdaIn s.nSda).toNat) % 256,
       { s with scl := false, nSda := s.nSda + 1,
                trace := s.trace ++ rxBitEvents (env.sdaIn s.nSda) }) := by
  have hv : v <<< 1 = 2 * v := by rw [Nat.shiftLeft_eq]; omega
  cases hb : env.sdaIn s.nSda <;>
    simp [i2c_ReceiveByte_body, I2C_SCL_1, I2C_SCL_0, i2c_Speed, log, I2C_SDA_READ, hb, hv,
      rxBitEvents]

/-- The whole effect of `i2c_ReceiveByte`. -/
theorem i2c_ReceiveByte_eq (env : Env) (s : Bus) :
    i2c_ReceiveByte env s =
      (rxValue env s.nSda,
       { s with scl := false, nSda := s.nSda + 8, trace := s.trace ++ rxEvents env s.nSda }) := by
  simp only [i2c_ReceiveByte, List.range, List.range.loop, List.foldl, i2c_ReceiveByte_body_eq,
    log, horner8, Nat.add_assoc, List.append_assoc]
  simp [rxValue, rxEvents, Nat.add_assoc]

/-- The SDA level at the clock pulse of one pass of the send loop. -/
theorem sdaAtClockHigh_txBit (d v : Bool) (t : List Ev) :
    sdaAtClockHigh d (txBitEvents v ++ t) = v :: sdaAtClockHigh v t := by
  simp [sdaAtClockHigh, txBitEvents]

/-- A delay is no clock pulse. -/
theorem sdaAtClockHigh_speed (d : Bool) (t : List Ev) :
    sdaAtClockHigh d (Ev.speed :: t) = sdaAtClockHigh d t := by
  simp [sdaAtClockHigh]

/-- An entry into a primitive is no clock pulse. -/
theorem sdaAtClockHigh_call (d : Bool) (p : Prim) (t : List Ev) :
    sdaAtClockHigh d (Ev.call p :: t) = sdaAtClockHigh d t := by
  simp [sdaAtClockHigh]

/-- A write to SDA changes the level seen by later clock pulses. -/
theorem sdaAtClockHigh_sda (d v : Bool) (t : List Ev) :
    sdaAtClockHigh d (Ev.sda v :: t) = sdaAtClockHigh v t := by
  simp [sdaAtClockHigh]

/-- The empty trace has no clock pulse. -/
theorem sdaAtClockHigh_nil (d : Bool) : sdaAtClockHigh d [] = [] := by
  simp [sdaAtClockHigh]

/-- The SDA levels at the eight clock pulses of `i2c_SendByte b`. -/
theorem sdaAtClockHigh_txEvents (b : Nat) (d : Bool) :
    sdaAtClockHigh d (txEvents b) =
      [b.testBit 7, b.testBit 6, b.testBit 5, b.testBit 4,
       b.testBit 3, b.testBit 2, b.testBit 1, b.testBit 0] := by
  simp only [txEvents, List.append_assoc, List.singleton_append, List.cons_append,
    List.nil_append, sdaAtClockHigh_txBit, sdaAtClockHigh_speed, sdaAtClockHigh_call,
    sdaAtClockHigh_sda, sdaAtClockHigh_nil]

/-- Dropping the old trace leaves what was appended. -/
theorem drop_old_trace (t u : List Ev) : (t ++ u).drop t.length = u := by simp

/-! ## Bus conditions and acknowledge bits in closed form -/

/-- The whole effect of `i2c_Start`. -/
theorem i2c_Start_eq (s : Bus) :
    i2c_Start s = { s with sda := false, scl := false, trace := s.trace ++ startEvents } := by
  simp [i2c_Start, log, I2C_SDA_1, I2C_SDA_0, I2C_SCL_1, I2C_SCL_0, i2c_Speed, startEvents]

/-- The whole effect of `i2c_Stop`. -/
theorem i2c_Stop_eq (s : Bus) :
    i2c_Stop s = { s with sda := true, scl := true, trace := s.trace ++ stopEvents } := by
  simp [i2c_Stop, log, I2C_SDA_1, I2C_SDA_0, I2C_SCL_1, i2c_Speed, stopEvents]

/-- The whole effect of `Mster_ACK`. -/
theorem Mster_ACK_eq (s : Bus) :
    Mster_ACK s = { s with sda := true, scl := false, trace := s.trace ++ mackEvents } := by
  simp [Mster_ACK, log, I2C_SDA_1, I2C_SDA_0, I2C_SCL_1, I2C_SCL_0, i2c_Speed, mackEvents]

/-- The whole effect of `Mster_NOACK`. -/
theorem Mster_NOACK_eq (s : Bus) :
    Mster_NOACK s = { s with sda := true, scl := false, trace := s.trace ++ nackEvents } := by
  simp [Mster_NOACK, log, I2C_SDA_1, I2C_SCL_1, I2C_SCL_0, i2c_Speed, nackEvents]

/-- The two ways `Slave_ACK` can end: a first low sample among the next 251, or
251 high samples and a timeout. -/
theorem Slave_ACK_cases (env : Env) (s : Bus) :
    (∃ k, k < 251 ∧ (∀ j, j < k → env.sdaIn (s.nSda + j) = true) ∧
      env.sdaIn (s.nSda + k) = false ∧ Slave_ACK env s = some (0, ackOk k s)) ∨
    ((∀ k, k < 251 → env.sdaIn (s.nSda + k) = true) ∧ Slave_ACK env s = some (1, ackFail s)) := by
  rcases first_low_or_all_high (fun k => env.sdaIn (s.nSda + k)) with h | ⟨k, hk, hhigh, hlow⟩
  · right
    refine ⟨h, ?_⟩
    rw [Slave_ACK_timeout_eq env s h]
    simp only [ackFail, ackFailEvents, List.append_assoc]
  · left
    refine ⟨k, hk, hhigh, hlow, ?_⟩
    rw [Slave_ACK_ack_eq env s k hk hhigh hlow]
    simp only [ackOk, ackOkEvents, List.append_assoc]

/-! ## Call sequences -/

/-- Entries into primitives distribute over concatenation. -/
theorem calls_append (t u : List Ev) : calls (t ++ u) = calls t ++ calls u := by
  simp [calls, List.filterMap_append]

/-- Samples of SDA enter no primitive. -/
theorem calls_replicate_readSda (n : Nat) (v : Bool) :
    calls (List.replicate n (Ev.readSda v)) = [] := by
  induction n with
  | zero => rfl
  | succ n ih =>
    rw [List.replicate_succ]
    simp [calls]

/-- The events of a START enter `i2c_Start` once. -/
theorem calls_startEvents : calls startEvents = [Prim.i2c_Start] := rfl

/-- The events of a STOP enter `i2c_Stop` once. -/
theorem calls_stopEvents : calls stopEvents = [Prim.i2c_Stop] := rfl

/-- The events of a master ACK enter `Mster_ACK` once. -/
theorem calls_mackEvents : calls mackEvents = [Prim.Mster_ACK] := rfl

/-- The events of a master NACK enter `Mster_NOACK` once. -/
theorem calls_nackEvents : calls nackEvents = [Prim.Mster_NOACK] := rfl

/-- The events of a sent byte enter `i2c_SendByte` once. -/
theorem calls_txEvents (b : Nat) : calls (txEvents b) = [Prim.i2c_SendByte b] := by
  simp [calls, txEvents, txBitEvents]

/-- The events of a received byte enter `i2c_ReceiveByte` once. -/
theorem calls_rxEvents (env : Env) (m : Nat) : calls (rxEvents env m) = [Prim.i2c_ReceiveByte] := by
  simp [calls, rxEvents, rxBitEvents]

/-- A successful acknowledge wait enters `Slave_ACK` only. -/
theorem calls_ackOkEvents (k : Nat) : calls (ackOkEvents k) = [Prim.Slave_ACK] := by
  simp only [ackOkEvents, calls_append, calls_replicate_readSda]
  rfl

/-- A timed-out acknowledge wait enters `Slave_ACK` and then `i2c_Stop`. -/
theorem calls_ackFailEvents : calls ackFailEvents = [Prim.Slave_ACK, Prim.i2c_Stop] := by
  simp only [ackFailEvents, calls_append, calls_replicate_readSda]
  rfl

/-- On a bus that reads idle, `i2c_CheckDevice` is START, one sent byte, one
acknowledge wait and STOP, and returns the result of the wait. -/
theorem i2c_CheckDevice_idle_eq (env : Env) (wr addr : Nat) (s : Bus)
    (hsda : env.sdaIn s.nSda = true) (hscl : env.sclIn s.nScl = true) :
    i2c_CheckDevice env wr addr s =
      (Slave_ACK env (i2c_SendByte ((addr ||| wr) % 256)
        (i2c_Start (I2C_SCL_READ env (I2C_SDA_READ env s).2).2))).map
        (fun r => (r.1, i2c_Stop r.2)) := by
  unfold i2c_CheckDevice
  simp only [I2C_SDA_READ, I2C_SCL_READ, hsda, hscl, if_true, Bool.and_self]
  cases Slave_ACK env _ <;> rfl

/-- The bus of `i2c_CheckDevice` just before its acknowledge wait. -/
theorem probe_sent_eq (env : Env) (x : Nat) (s : Bus) :
    i2c_SendByte x (i2c_Start (I2C_SCL_READ env (I2C_SDA_READ env s).2).2) =
      { sda := true, scl := false, nSda := s.nSda + 1, nScl := s.nScl + 1,
        trace := s.trace ++ ([Ev.readSda (env.sdaIn s.nSda), Ev.readScl (env.sclIn s.nScl)]
          ++ startEvents ++ txEvents x) } := by
  simp [i2c_SendByte_eq, i2c_Start_eq, I2C_SDA_READ, I2C_SCL_READ]

/-- Samples of SDA distribute over concatenation. -/
theorem sdaSamples_append (t u : List Ev) :
    sdaSamples (t ++ u) = sdaSamples t + sdaSamples u := by
  simp [sdaSamples, List.countP_append]

/-- Entries into `i2c_Stop` distribute over concatenation. -/
theorem stops_append (t u : List Ev) : stops (t ++ u) = stops t + stops u := by
  simp [stops, List.count_append]

/-- A sent byte takes no sample of SDA. -/
theorem sdaSamples_txEvents (b : Nat) : sdaSamples (txEvents b) = 0 := by
  simp [sdaSamples, txEvents, txBitEvents, isSdaRead]

/-- A sent byte does not enter `i2c_Stop`. -/
theorem stops_txEvents (b : Nat) : stops (txEvents b) = 0 := by
  simp [stops, txEvents, txBitEvents]

/-- A timed-out acknowledge wait takes 251 samples of SDA. -/
theorem sdaSamples_ackFailEvents : sdaSamples ackFailEvents = 251 := by
  have h := sdaSamples_timeout_trace 251 []
  rw [List.nil_append] at h
  rw [ackFailEvents, h]
  rfl

/-- A timed-out acknowledge wait enters `i2c_Stop` once. -/
theorem stops_ackFailEvents : stops ackFailEvents = 1 := by
  have h := stops_timeout_trace 251 []
  rw [List.nil_append] at h
  rw [ackFailEvents, h]
  rfl

/-- The polls of the acknowledge wait in the trace of a probe whose wait takes `n`
high samples and times out. -/
theorem ackPolls_probe (x n : Nat) (a b : Bool) :
    ackPolls ([Ev.readSda a, Ev.readScl b] ++ startEvents ++ txEvents x
      ++ (ackPrelude ++ List.replicate n (Ev.readSda true) ++ stopEvents) ++ stopEvents) = n := by
  simp [ackPolls, sdaSamples, List.dropWhile_cons, isAckEntry, txEvents, txBitEvents, startEvents,
    ackPrelude, stopEvents, List.countP_append, List.countP_cons, List.countP_replicate, isSdaRead]

/-- The result of `i2c_CheckDevice` on a bus that reads idle when the next 251
samples of SDA read high. -/
theorem i2c_CheckDevice_absent_eq (env : Env) (wr addr : Nat) (s : Bus)
    (hsda : env.sdaIn s.nSda = true) (hscl : env.sclIn s.nScl = true)
    (habs : ∀ k, k < 251 → env.sdaIn (s.nSda + 1 + k) = true) :
    i2c_CheckDevice env wr addr s = some (1,
      { sda := true, scl := true, nSda := s.nSda + 252, nScl := s.nScl + 1,
        trace := s.trace ++ ([Ev.readSda true, Ev.readScl true] ++ startEvents
          ++ txEvents ((addr ||| wr) % 256) ++ ackFailEvents ++ stopEvents) }) := by
  rw [i2c_CheckDevice_idle_eq env wr addr s hsda hscl, probe_sent_eq, hsda, hscl]
  rcases Slave_ACK_cases env
    { sda := true, scl := false, nSda := s.nSda + 1, nScl := s.nScl + 1,
      trace := s.trace ++ ([Ev.readSda true, Ev.readScl true]
        ++ startEvents ++ txEvents ((addr ||| wr) % 256)) }
    with ⟨k, hk, _, hlow, _⟩ | ⟨_, hres⟩
  · have := habs k hk
    simp only [] at hlow
    rw [hlow] at this
    exact absurd this (by decide)
  · rw [hres]
    simp only [Option.map_some', i2c_Stop_eq, ackFail, List.append_assoc, Nat.add_assoc]

/-! ## The multi-byte read -/

/-- Every acknowledge wait ends, in one of the outcomes described by `ackDone`. -/
theorem Slave_ACK_outcome (env : Env) (s : Bus) :
    ∃ o, Slave_ACK env s = some (ackResult o, ackDone o s) := by
  rcases Slave_ACK_cases env s with ⟨k, _, _, _, hres⟩ | ⟨_, hres⟩
  · exact ⟨some k, hres⟩
  · exact ⟨none, hres⟩

/-- The addressing phase of `I2C_ReadBytes`: START, device address, register, repeated
START, device address plus one, with an acknowledge wait after each byte, whatever the
waits return. -/
theorem I2C_ReadBytes_header (env : Env) (dev reg length : Nat) (data : Buf) (s : Bus) :
    ∃ o1 o2 o3, I2C_ReadBytes env dev reg length data s =
      (I2C_ReadBytes_loop env length 256 0
        { sda := true, scl := o3.isNone,
          nSda := s.nSda + ackSamples o1 + ackSamples o2 + ackSamples o3, nScl := s.nScl,
          trace := s.trace ++ (startEvents ++ txEvents dev ++ ackEvents o1 ++ txEvents reg
            ++ ackEvents o2 ++ startEvents ++ txEvents ((dev + 1) % 256) ++ ackEvents o3) }
        data).map (fun r => (r.1, i2c_Stop r.2.1, r.2.2)) := by
  unfold I2C_ReadBytes
  obtain ⟨o1, h1⟩ := Slave_ACK_outcome env (i2c_SendByte dev (i2c_Start s))
  obtain ⟨o2, h2⟩ := Slave_ACK_outcome env
    (i2c_SendByte reg (ackDone o1 (i2c_SendByte dev (i2c_Start s))))
  obtain ⟨o3, h3⟩ := Slave_ACK_outcome env
    (i2c_SendByte ((dev + 1) % 256) (i2c_Start (ackDone o2
      (i2c_SendByte reg (ackDone o1 (i2c_SendByte dev (i2c_Start s)))))))
  refine ⟨o1, o2, o3, ?_⟩
  simp only [h1, h2, h3, Option.bind_eq_bind, Option.some_bind]
  simp only [ackDone, i2c_SendByte_eq, i2c_Start_eq, List.append_assoc]
  cases I2C_ReadBytes_loop env length 256 0 _ data <;> rfl

/-- The read loop with `k` passes left ends with `count = length`, having appended
`readLoopEvents` and filled the buffer as `readLoopData`. -/
theorem I2C_ReadBytes_loop_eq (env : Env) (length : Nat) (hlen : length < 256) :
    ∀ (k fuel count : Nat) (s : Bus) (data : Buf), count + k = length → k < fuel →
      I2C_ReadBytes_loop env length fuel count s data =
        some (length,
          { sda := if k = 0 then s.sda else true, scl := if k = 0 then s.scl else false,
            nSda := s.nSda + 8 * k, nScl := s.nScl,
            trace := s.trace ++ readLoopEvents env length k count s.nSda },
          readLoopData env k count s.nSda data) := by
  intro k
  induction k with
  | zero =>
    intro fuel count s data hc hf
    obtain ⟨f, rfl⟩ : ∃ f, fuel = f + 1 := ⟨fuel - 1, by omega⟩
    have hlt : ¬ count < length := by omega
    simp only [Nat.add_zero] at hc
    subst hc
    simp [I2C_ReadBytes_loop, readLoopEvents, readLoopData]
  | succ k ih =>
    intro fuel count s data hc hf
    obtain ⟨f, rfl⟩ : ∃ f, fuel = f + 1 := ⟨fuel - 1, by omega⟩
    have hlt : count < length := by omega
    have hmod : (count + 1) % 256 = count + 1 := Nat.mod_eq_of_lt (by omega)
    rw [I2C_ReadBytes_loop]
    simp only [hlt, if_true, hmod, i2c_ReceiveByte_eq, Mster_ACK_eq, Mster_NOACK_eq]
    by_cases hlast : count + 1 = length
    · have hint : ¬ ((count : Int) ≠ (length : Int) - 1) := by omega
      rw [if_neg hint]
      rw [ih f (count + 1) _ _ (by omega) (by omega)]
      simp [readLoopEvents, readLoopData, hlast, Nat.add_assoc, Nat.mul_add, Nat.add_comm 8]
    · have hint : (count : Int) ≠ (length : Int) - 1 := by omega
      rw [if_pos hint]
      rw [ih f (count + 1) _ _ (by omega) (by omega)]
      simp [readLoopEvents, readLoopData, hlast, Nat.add_assoc, Nat.mul_add, Nat.add_comm 8]

/-- The primitives entered by the last `k` passes of the read loop follow the acknowledge
pattern. -/
theorem calls_readLoopEvents (env : Env) (length : Nat) :
    ∀ (k count m : Nat), count + k = length →
      calls (readLoopEvents env length k count m) = ackPattern k := by
  intro k
  induction k with
  | zero => intro count m _; rfl
  | succ k ih =>
    intro count m hc
    have hrec := ih (count + 1) (m + 8) (by omega)
    cases k with
    | zero =>
      have hlast : count + 1 = length := by omega
      simp only [readLoopEvents, hlast, if_true, calls_append, calls_rxEvents, calls_nackEvents,
        ackPattern]
      rfl
    | succ k =>
      have hlast : ¬ (count + 1 = length) := by omega
      simp only [readLoopEvents, hlast, if_false, calls_append, calls_rxEvents, calls_mackEvents,
        ackPattern] at hrec ⊢
      rw [hrec]
      rfl

/-- Received bytes distribute over concatenation. -/
theorem received_append (t u : List Ev) : received (t ++ u) = received t ++ received u := by
  simp [received, List.filterMap_append]

/-- One `i2c_ReceiveByte` records the byte it assembled. -/
theorem received_rxEvents (env : Env) (m : Nat) :
    received (rxEvents env m) = [rxValue env m] := by
  simp [received, rxEvents, rxBitEvents]

/-- A sent byte records no received byte. -/
theorem received_txEvents (b : Nat) : received (txEvents b) = [] := by
  simp [received, txEvents, txBitEvents]

/-- Samples of SDA record no received byte. -/
theorem received_replicate_readSda (n : Nat) (v : Bool) :
    received (List.replicate n (Ev.readSda v)) = [] := by
  induction n with
  | zero => rfl
  | succ n ih =>
    rw [List.replicate_succ]
    simp [received]

/-- An acknowledge wait records no received byte. -/
theorem received_ackEvents (o : Option Nat) : received (ackEvents o) = [] := by
  cases o with
  | none =>
    simp only [ackEvents, ackFailEvents, received_append, received_replicate_readSda]
    rfl
  | some k =>
    simp only [ackEvents, ackOkEvents, received_append, received_replicate_readSda]
    rfl

/-- An acknowledge wait neither receives a byte nor answers one. -/
theorem calls_ackEvents_filter (o : Option Nat) : (calls (ackEvents o)).filter isRxAck = [] := by
  cases o with
  | none => rw [ackEvents, calls_ackFailEvents]; rfl
  | some k => rw [ackEvents, calls_ackOkEvents]; rfl

/-- The bytes received by `k` passes of the read loop are assembled from consecutive
groups of eight samples. -/
theorem received_readLoopEvents (env : Env) (length : Nat) :
    ∀ (k count m : Nat),
      received (readLoopEvents env length k count m) =
        (List.range k).map (fun i => rxValue env (m + 8 * i)) := by
  intro k
  induction k with
  | zero => intro count m; rfl
  | succ k ih =>
    intro count m
    have hack : received (if count + 1 = length then nackEvents else mackEvents) = [] := by
      split <;> rfl
    simp only [readLoopEvents, received_append, received_rxEvents, hack, ih, List.append_nil,
      List.range_succ_eq_map, List.map_cons, List.map_map, List.singleton_append,
      Nat.mul_zero, Nat.add_zero]
    congr 1
    apply List.map_congr_left
    intro i _
    simp only [Function.comp]
    congr 1
    omega

/-- The buffer after `k` passes of the read loop, entry by entry. -/
theorem readLoopData_apply (env : Env) :
    ∀ (k count m : Nat) (data : Buf) (i : Nat),
      readLoopData env k count m data i =
        if count ≤ i ∧ i < count + k then rxValue env (m + 8 * (i - count)) else data i := by
  intro k
  induction k with
  | zero =>
    intro count m data i
    have : ¬ (count ≤ i ∧ i < count + 0) := by omega
    rw [if_neg this]
    rfl
  | succ k ih =>
    intro count m data i
    rw [readLoopData, ih]
    by_cases h1 : count + 1 ≤ i ∧ i < count + 1 + k
    · have h2 : count ≤ i ∧ i < count + (k + 1) := by omega
      rw [if_pos h1, if_pos h2]
      congr 1
      omega
    · rw [if_neg h1]
      by_cases h3 : i = count
      · subst h3
        have h2 : i ≤ i ∧ i < i + (k + 1) := by omega
        simp [h2]
      · have h2 : ¬ (count ≤ i ∧ i < count + (k + 1)) := by omega
        rw [if_neg h2, Function.update_noteq h3]

/-- The acknowledge pattern of `k + 1` bytes: `k` times receive and ACK, then receive and
NACK. -/
theorem ackPattern_succ (k : Nat) :
    ackPattern (k + 1) =
      (List.replicate k [Prim.i2c_ReceiveByte, Prim.Mster_ACK]).flatten
        ++ [Prim.i2c_ReceiveByte, Prim.Mster_NOACK] := by
  induction k with
  | zero => rfl
  | succ k ih =>
    rw [ackPattern, ih, List.replicate_succ, List.flatten_cons, List.append_assoc]

/-- The acknowledge pattern consists of receive and answer primitives only. -/
theorem filter_ackPattern : ∀ n, (ackPattern n).filter isRxAck = ackPattern n
  | 0 => rfl
  | 1 => rfl
  | n + 2 => by
    rw [ackPattern, List.filter_append, filter_ackPattern (n + 1)]
    rfl

/-- The whole effect of `I2C_ReadBytes` for a length below 256. -/
theorem I2C_ReadBytes_eq (env : Env) (dev reg n : Nat) (data : Buf) (s : Bus) (hn : n < 256) :
    ∃ o1 o2 o3, I2C_ReadBytes env dev reg n data s = some (n,
      { sda := true, scl := true,
        nSda := s.nSda + ackSamples o1 + ackSamples o2 + ackSamples o3 + 8 * n, nScl := s.nScl,
        trace := s.trace ++ (startEvents ++ txEvents dev ++ ackEvents o1 ++ txEvents reg
          ++ ackEvents o2 ++ startEvents ++ txEvents ((dev + 1) % 256) ++ ackEvents o3
          ++ readLoopEvents env n n 0 (s.nSda + ackSamples o1 + ackSamples o2 + ackSamples o3)
          ++ stopEvents) },
      readLoopData env n 0 (s.nSda + ackSamples o1 + ackSamples o2 + ackSamples o3) data) := by
  obtain ⟨o1, o2, o3, h⟩ := I2C_ReadBytes_header env dev reg n data s
  refine ⟨o1, o2, o3, ?_⟩
  rw [h, I2C_ReadBytes_loop_eq env n hn n 256 0 _ data (by omega) (by omega)]
  simp only [Option.map_some', i2c_Stop_eq, List.append_assoc]

/-! ## Transactions as sequences of steps -/

/-- When the search finds a low sample, it is the first one in the range searched. -/
theorem firstLow_some (env : Env) (m : Nat) :
    ∀ (n k j : Nat), firstLow env m n k = some j →
      k ≤ j ∧ j < k + n ∧ (∀ i, k ≤ i → i < j → env.sdaIn (m + i) = true) ∧
        env.sdaIn (m + j) = false := by
  intro n
  induction n with
  | zero => intro k j h; simp [firstLow] at h
  | succ n ih =>
    intro k j h
    rw [firstLow] at h
    cases hk : env.sdaIn (m + k) with
    | true =>
      rw [hk, if_pos rfl] at h
      obtain ⟨h1, h2, h3, h4⟩ := ih (k + 1) j h
      refine ⟨by omega, by omega, ?_, h4⟩
      intro i hi1 hi2
      by_cases hik : i = k
      · subst hik; exact hk
      · exact h3 i (by omega) hi2
    | false =>
      rw [hk] at h
      simp only [Bool.false_eq_true, if_false, Option.some.injEq] at h
      subst h
      exact ⟨le_refl _, by omega, fun i h1 h2 => absurd h2 (by omega), hk⟩

/-- When the search finds nothing, every sample in the range searched reads high. -/
theorem firstLow_none (env : Env) (m : Nat) :
    ∀ (n k : Nat), firstLow env m n k = none →
      ∀ i, k ≤ i → i < k + n → env.sdaIn (m + i) = true := by
  intro n
  induction n with
  | zero => intro k _ i h1 h2; omega
  | succ n ih =>
    intro k h i h1 h2
    rw [firstLow] at h
    cases hk : env.sdaIn (m + k) with
    | true =>
      rw [hk, if_pos rfl] at h
      by_cases hik : i = k
      · subst hik; exact hk
      · exact ih (k + 1) h i (by omega) (by omega)
    | false =>
      rw [hk] at h
      simp at h

/-- The result of `Slave_ACK` in closed form: its return value and bus are decided by the
outcome of the wait, which is computed from the samples. -/
theorem Slave_ACK_eq (env : Env) (s : Bus) :
    Slave_ACK env s =
      some (ackResult (ackOutcome env s.nSda), ackDone (ackOutcome env s.nSda) s) := by
  cases h : ackOutcome env s.nSda with
  | none =>
    have hall := firstLow_none env s.nSda 251 0 h
    rw [Slave_ACK_timeout_eq env s (fun k hk => hall k (Nat.zero_le k) (by omega))]
    simp only [ackResult, ackDone, ackEvents, ackFailEvents, ackSamples, Option.isNone_none,
      List.append_assoc]
  | some k =>
    obtain ⟨_, h2, h3, h4⟩ := firstLow_some env s.nSda 251 0 k h
    rw [Slave_ACK_ack_eq env s k (by omega) (fun j hj => h3 j (Nat.zero_le j) hj) h4]
    simp only [ackResult, ackDone, ackEvents, ackOkEvents, ackSamples, Option.isNone_some,
      List.append_assoc]

/-- The events of two sequences of steps run one after the other. -/
theorem scriptEvents_append (env : Env) :
    ∀ (a : List Step) (m : Nat) (b : List Step),
      scriptEvents env m (a ++ b) =
        scriptEvents env m a ++ scriptEvents env (m + scriptSamples env m a) b := by
  intro a
  induction a with
  | nil => intro m b; simp [scriptEvents, scriptSamples]
  | cons st rest ih =>
    intro m b
    show scriptEvents env m (st :: (rest ++ b)) = _
    rw [scriptEvents, ih, scriptEvents, scriptSamples]
    simp only [List.append_assoc, Nat.add_assoc]

/-- The samples of two sequences of steps run one after the other. -/
theorem scriptSamples_append (env : Env) :
    ∀ (a : List Step) (m : Nat) (b : List Step),
      scriptSamples env m (a ++ b) =
        scriptSamples env m a + scriptSamples env (m + scriptSamples env m a) b := by
  intro a
  induction a with
  | nil => intro m b; simp [scriptSamples]
  | cons st rest ih =>
    intro m b
    show scriptSamples env m (st :: (rest ++ b)) = _
    rw [scriptSamples, ih, scriptSamples]
    simp only [Nat.add_assoc]

/-- The timeouts of two sequences of steps run one after the other. -/
theorem scriptTimeouts_append (env : Env) :
    ∀ (a : List Step) (m : Nat) (b : List Step),
      scriptTimeouts env m (a ++ b) =
        scriptTimeouts env m a + scriptTimeouts env (m + scriptSamples env m a) b := by
  intro a
  induction a with
  | nil => intro m b; simp [scriptTimeouts, scriptSamples]
  | cons st rest ih =>
    intro m b
    show scriptTimeouts env m (st :: (rest ++ b)) = _
    rw [scriptTimeouts, ih, scriptTimeouts, scriptSamples]
    simp only [Nat.add_assoc]

/-- On a bus that reads idle, `i2c_CheckDevice` runs the steps of `checkScript` and
returns the result of its acknowledge wait. -/
theorem i2c_CheckDevice_idle_script (env : Env) (wr addr : Nat) (s : Bus)
    (hsda : env.sdaIn s.nSda = true) (hscl : env.sclIn s.nScl = true) :
    i2c_CheckDevice env wr addr s =
      some (ackResult (ackOutcome env (s.nSda + 1)),
        { sda := true, scl := true,
          nSda := s.nSda + 1 + scriptSamples env (s.nSda + 1) (checkScript ((addr ||| wr) % 256)),
          nScl := s.nScl + 1,
          trace := s.trace ++ ([Ev.readSda true, Ev.readScl true]
            ++ scriptEvents env (s.nSda + 1) (checkScript ((addr ||| wr) % 256))) }) := by
  rw [i2c_CheckDevice_idle_eq env wr addr s hsda hscl, probe_sent_eq, hsda, hscl, Slave_ACK_eq]
  simp only [Option.map_some', i2c_Stop_eq, ackDone, checkScript, scriptEvents, scriptSamples,
    stepEvents, stepSamples, List.append_assoc, List.append_nil, Nat.add_zero, Nat.zero_add,
    Nat.add_assoc]

/-- The function `I2C_WriteByte` runs the steps of `writeByteScript`. -/
theorem I2C_WriteByte_script (env : Env) (address data_value : Nat) (s : Bus) :
    I2C_WriteByte env address data_value s =
      some { sda := true, scl := true,
             nSda := s.nSda + scriptSamples env s.nSda (writeByteScript address data_value),
             nScl := s.nScl,
             trace := s.trace ++ scriptEvents env s.nSda (writeByteScript address data_value) } := by
  simp only [I2C_WriteByte, Slave_ACK_eq, Option.bind_eq_bind, Option.some_bind, i2c_Stop_eq,
    i2c_Start_eq, i2c_SendByte_eq, ackDone, writeByteScript, scriptEvents, scriptSamples,
    stepEvents, stepSamples, List.append_assoc, List.append_nil, Nat.add_zero, Nat.zero_add,
    Nat.add_assoc]

/-- The function `I2C_ReadByte` runs the steps of `readByteScript` and returns the byte
received. -/
theorem I2C_ReadByte_script (env : Env) (address : Nat) (s : Bus) :
    I2C_ReadByte env address s =
      some (rxValue env (s.nSda + scriptSamples env s.nSda
              [Step.start, Step.send 0xa0, Step.ack, Step.send address, Step.ack,
               Step.start, Step.send 0xa1, Step.ack]),
        { sda := true, scl := true,
          nSda := s.nSda + scriptSamples env s.nSda (readByteScript address),
          nScl := s.nScl,
          trace := s.trace ++ scriptEvents env s.nSda (readByteScript address) }) := by
  simp only [I2C_ReadByte, Slave_ACK_eq, Option.bind_eq_bind, Option.some_bind, i2c_Stop_eq,
    i2c_Start_eq, i2c_SendByte_eq, i2c_ReceiveByte_eq, Mster_NOACK_eq, ackDone, readByteScript,
    scriptEvents, scriptSamples,
    stepEvents, stepSamples, List.append_assoc, List.append_nil, Nat.add_zero, Nat.zero_add,
    Nat.add_assoc]

/-- The write loop with `k` passes left ends with `count = length`, having run the steps
of `writeLoopScript`. -/
theorem I2C_WriteBytes_loop_script (env : Env) (length : Nat) (data : Buf) (hlen : length < 256) :
    ∀ (k fuel count : Nat) (s : Bus), count + k = length → k < fuel →
      ∃ a b, I2C_WriteBytes_loop env length data fuel count s =
        some (length,
          { sda := a, scl := b,
            nSda := s.nSda + scriptSamples env s.nSda (writeLoopScript data k count),
            nScl := s.nScl,
            trace := s.trace ++ scriptEvents env s.nSda (writeLoopScript data k count) }) := by
  intro k
  induction k with
  | zero =>
    intro fuel count s hc hf
    obtain ⟨f, rfl⟩ : ∃ f, fuel = f + 1 := ⟨fuel - 1, by omega⟩
    simp only [Nat.add_zero] at hc
    subst hc
    exact ⟨s.sda, s.scl, by simp [I2C_WriteBytes_loop, writeLoopScript, scriptEvents,
      scriptSamples]⟩
  | succ k ih =>
    intro fuel count s hc hf
    obtain ⟨f, rfl⟩ : ∃ f, fuel = f + 1 := ⟨fuel - 1, by omega⟩
    have hlt : count < length := by omega
    have hmod : (count + 1) % 256 = count + 1 := Nat.mod_eq_of_lt (by omega)
    obtain ⟨a, b, h⟩ := ih f (count + 1)
      (ackDone (ackOutcome env (i2c_SendByte (data count) s).nSda) (i2c_SendByte (data count) s))
      (by omega) (by omega)
    refine ⟨a, b, ?_⟩
    rw [I2C_WriteBytes_loop]
    simp only [hlt, if_true, hmod, Slave_ACK_eq]
    rw [h]
    simp only [i2c_SendByte_eq, ackDone, writeLoopScript, scriptEvents, scriptSamples, stepEvents,
      stepSamples, List.append_assoc, Nat.add_assoc, Nat.zero_add, Nat.add_zero]

/-- The function `I2C_WriteBytes` runs the steps of `writeBytesScript` and returns 1, for
a length below 256. -/
theorem I2C_WriteBytes_script (env : Env) (dev reg n : Nat) (data : Buf) (s : Bus)
    (hn : n < 256) :
    I2C_WriteBytes env dev reg n data s =
      some (1,
        { sda := true, scl := true,
          nSda := s.nSda + scriptSamples env s.nSda (writeBytesScript dev reg n data),
          nScl := s.nScl,
          trace := s.trace ++ scriptEvents env s.nSda (writeBytesScript dev reg n data) }) := by
  unfold I2C_WriteBytes
  simp only [Slave_ACK_eq, Option.bind_eq_bind, Option.some_bind]
  obtain ⟨a, b, h⟩ := I2C_WriteBytes_loop_script env n data hn n 256 0
    (ackDone (ackOutcome env (i2c_SendByte reg (ackDone (ackOutcome env
      (i2c_SendByte dev (i2c_Start s)).nSda) (i2c_SendByte dev (i2c_Start s)))).nSda)
      (i2c_SendByte reg (ackDone (ackOutcome env
      (i2c_SendByte dev (i2c_Start s)).nSda) (i2c_SendByte dev (i2c_Start s)))))
    (by omega) (by omega)
  rw [h, writeBytesScript, scriptEvents_append, scriptEvents_append, scriptSamples_append,
    scriptSamples_append]
  simp only [Option.some_bind, i2c_Stop_eq, i2c_Start_eq, i2c_SendByte_eq, ackDone,
    scriptEvents, scriptSamples, stepEvents, stepSamples, List.append_assoc, List.append_nil,
    Nat.add_zero, Nat.zero_add, Nat.add_assoc]

/-- The events of the last `k` passes of the read loop are those of the steps of
`readLoopScript`, with eight samples for each pass. -/
theorem readLoopEvents_script (env : Env) (length : Nat) :
    ∀ (k count m : Nat), count + k = length →
      readLoopEvents env length k count m = scriptEvents env m (readLoopScript k) ∧
      scriptSamples env m (readLoopScript k) = 8 * k := by
  intro k
  induction k with
  | zero => intro count m _; exact ⟨rfl, rfl⟩
  | succ k ih =>
    intro count m hc
    obtain ⟨h1, h2⟩ := ih (count + 1) (m + 8) (by omega)
    cases k with
    | zero =>
      have hlast : count + 1 = length := by omega
      simp [readLoopEvents, readLoopScript, scriptEvents, scriptSamples, stepEvents, stepSamples,
        hlast]
    | succ k =>
      have hlast : ¬ (count + 1 = length) := by omega
      simp only [readLoopEvents, hlast, if_false, readLoopScript, scriptEvents, scriptSamples,
        stepEvents, stepSamples, Nat.add_zero, List.append_assoc] at h1 h2 ⊢
      rw [h1, h2]
      exact ⟨rfl, by omega⟩

/-- The function `I2C_ReadBytes` runs the steps of `readBytesScript` and returns the
length, for a length below 256. -/
theorem I2C_ReadBytes_script (env : Env) (dev reg n : Nat) (data : Buf) (s : Bus)
    (hn : n < 256) :
    I2C_ReadBytes env dev reg n data s =
      some (n,
        { sda := true, scl := true,
          nSda := s.nSda + scriptSamples env s.nSda (readBytesScript dev reg n),
          nScl := s.nScl,
          trace := s.trace ++ scriptEvents env s.nSda (readBytesScript dev reg n) },
        readLoopData env n 0 (s.nSda + scriptSamples env s.nSda
          [Step.start, Step.send dev, Step.ack, Step.send reg, Step.ack,
           Step.start, Step.send ((dev + 1) % 256), Step.ack]) data) := by
  unfold I2C_ReadBytes
  simp only [Slave_ACK_eq, Option.bind_eq_bind, Option.some_bind]
  rw [I2C_ReadBytes_loop_eq env n hn n 256 0 _ data (by omega) (by omega), readBytesScript,
    scriptEvents_append, scriptEvents_append, scriptSamples_append, scriptSamples_append]
  simp only [Option.some_bind, i2c_Stop_eq, i2c_Start_eq, i2c_SendByte_eq, ackDone,
    scriptEvents, scriptSamples, stepEvents, stepSamples, List.append_assoc, List.append_nil,
    Nat.add_zero, Nat.zero_add, Nat.add_assoc,
    (readLoopEvents_script env n n 0 _ (Nat.zero_add n)).1,
    (readLoopEvents_script env n n 0 _ (Nat.zero_add n)).2]

/-- An acknowledge wait enters `i2c_Stop` once when it times out and not at all otherwise. -/
theorem stops_ackEvents (o : Option Nat) : stops (ackEvents o) = if o.isNone then 1 else 0 := by
  cases o with
  | none => exact stops_ackFailEvents
  | some k =>
    have h := stops_ack_trace k []
    rw [List.nil_append] at h
    simpa [ackEvents, ackOkEvents] using h

/-- A received byte does not enter `i2c_Stop`. -/
theorem stops_rxEvents (env : Env) (m : Nat) : stops (rxEvents env m) = 0 := by
  simp [stops, rxEvents, rxBitEvents]

/-- A step enters `i2c_Stop` once when it is a STOP, once when it is an acknowledge wait
that times out, and not at all otherwise. -/
theorem stops_stepEvents (env : Env) (m : Nat) (st : Step) :
    stops (stepEvents env m st) =
      (if st.isStop then 1 else 0) + (if stepTimesOut env m st then 1 else 0) := by
  cases st with
  | start => rfl
  | stop => rfl
  | send b => simp [stepEvents, stops_txEvents, Step.isStop, stepTimesOut]
  | ack => simp [stepEvents, stops_ackEvents, Step.isStop, stepTimesOut]
  | recv => simp [stepEvents, stops_rxEvents, Step.isStop, stepTimesOut]
  | mack => rfl
  | nack => rfl

/-- The entries into `i2c_Stop` of a sequence of steps: one for each STOP step and one for
each acknowledge wait that times out. -/
theorem stops_scriptEvents (env : Env) :
    ∀ (sc : List Step) (m : Nat),
      stops (scriptEvents env m sc) = sc.countP Step.isStop + scriptTimeouts env m sc := by
  intro sc
  induction sc with
  | nil => intro m; rfl
  | cons st rest ih =>
    intro m
    rw [scriptEvents, stops_append, stops_stepEvents, ih, scriptTimeouts, List.countP_cons]
    omega

/-- Entries into `i2c_Start` distribute over concatenation. -/
theorem starts_append (t u : List Ev) : starts (t ++ u) = starts t + starts u := by
  simp [starts, List.countP_append]

/-- Samples of SDA do not enter `i2c_Start`. -/
theorem starts_replicate_readSda (n : Nat) (v : Bool) :
    starts (List.replicate n (Ev.readSda v)) = 0 := by
  simp [starts, List.countP_replicate, isStartEntry]

/-- A step enters `i2c_Start` once when it is a START and not at all otherwise. -/
theorem starts_stepEvents (env : Env) (m : Nat) (st : Step) :
    starts (stepEvents env m st) = if st.isStart then 1 else 0 := by
  cases st with
  | start => rfl
  | stop => rfl
  | send b => simp [stepEvents, starts, txEvents, txBitEvents, Step.isStart, isStartEntry]
  | ack =>
    cases h : ackOutcome env m with
    | none =>
      simp only [stepEvents, h, ackEvents, ackFailEvents, starts_append,
        starts_replicate_readSda, Step.isStart]
      rfl
    | some k =>
      simp only [stepEvents, h, ackEvents, ackOkEvents, starts_append,
        starts_replicate_readSda, Step.isStart]
      rfl
  | recv => simp [stepEvents, starts, rxEvents, rxBitEvents, Step.isStart, isStartEntry]
  | mack => rfl
  | nack => rfl

/-- The entries into `i2c_Start` of a sequence of steps: one for each START step. -/
theorem starts_scriptEvents (env : Env) :
    ∀ (sc : List Step) (m : Nat), starts (scriptEvents env m sc) = sc.countP Step.isStart := by
  intro sc
  induction sc with
  | nil => intro m; rfl
  | cons st rest ih =>
    intro m
    rw [scriptEvents, starts_append, starts_stepEvents, ih, List.countP_cons]
    omega

/-- The primitives a step enters: its own, and `i2c_Stop` after it when it is an
acknowledge wait that times out. -/
theorem calls_stepEvents (env : Env) (m : Nat) (st : Step) :
    calls (stepEvents env m st) =
      st.prim :: (if stepTimesOut env m st then [Prim.i2c_Stop] else []) := by
  cases st with
  | start => rfl
  | stop => rfl
  | send b => simp [stepEvents, calls_txEvents, Step.prim, stepTimesOut]
  | ack =>
    cases h : ackOutcome env m with
    | none => simp [stepEvents, h, ackEvents, calls_ackFailEvents, Step.prim, stepTimesOut]
    | some k => simp [stepEvents, h, ackEvents, calls_ackOkEvents, Step.prim, stepTimesOut]
  | recv => simp [stepEvents, calls_rxEvents, Step.prim, stepTimesOut]
  | mack => rfl
  | nack => rfl

/-- Apart from entries into `i2c_Stop`, the primitives entered by a sequence of steps are
those of the steps, in order. -/
theorem calls_scriptEvents_filter (env : Env) :
    ∀ (sc : List Step) (m : Nat),
      (calls (scriptEvents env m sc)).filter (fun p => !isStopCall p) =
        (sc.map Step.prim).filter (fun p => !isStopCall p) := by
  intro sc
  induction sc with
  | nil => intro m; rfl
  | cons st rest ih =>
    intro m
    rw [scriptEvents, calls_append, List.filter_append, ih, calls_stepEvents, List.map_cons]
    cases st with
    | ack =>
      cases h : stepTimesOut env m Step.ack <;> rfl
    | _ => rfl

/-- When no acknowledge wait times out, the primitives entered by a sequence of steps are
exactly those of the steps, in order. -/
theorem calls_scriptEvents_of_no_timeout (env : Env) :
    ∀ (sc : List Step) (m : Nat), scriptTimeouts env m sc = 0 →
      calls (scriptEvents env m sc) = sc.map Step.prim := by
  intro sc
  induction sc with
  | nil => intro m _; rfl
  | cons st rest ih =>
    intro m h
    rw [scriptTimeouts] at h
    have h1 : stepTimesOut env m st = false := by
      cases hst : stepTimesOut env m st with
      | false => rfl
      | true => rw [hst] at h; simp at h
    rw [scriptEvents, calls_append, calls_stepEvents, h1, ih _ (by omega), List.map_cons]
    rfl

/-- Sent bytes distribute over concatenation. -/
theorem sent_append (t u : List Ev) : sent (t ++ u) = sent t ++ sent u := by
  simp [sent, List.filterMap_append]

/-- Samples of SDA send no byte. -/
theorem sent_replicate_readSda (n : Nat) (v : Bool) :
    sent (List.replicate n (Ev.readSda v)) = [] := by
  induction n with
  | zero => rfl
  | succ n ih =>
    rw [List.replicate_succ]
    simp [sent]

/-- A step passes a byte to `i2c_SendByte` only when it is a send step. -/
theorem sent_stepEvents (env : Env) (m : Nat) (st : Step) :
    sent (stepEvents env m st) =
      match st with
      | Step.send b => [b]
      | _ => [] := by
  cases st with
  | start => rfl
  | stop => rfl
  | send b => simp [stepEvents, sent, txEvents, txBitEvents]
  | ack =>
    cases h : ackOutcome env m with
    | none =>
      simp only [stepEvents, h, ackEvents, ackFailEvents, sent_append, sent_replicate_readSda]
      rfl
    | some k =>
      simp only [stepEvents, h, ackEvents, ackOkEvents, sent_append, sent_replicate_readSda]
      rfl
  | recv => simp [stepEvents, sent, rxEvents, rxBitEvents]
  | mack => rfl
  | nack => rfl

/-- The bytes passed to `i2c_SendByte` by a sequence of steps are those of its send steps,
in order. -/
theorem sent_scriptEvents (env : Env) :
    ∀ (sc : List Step) (m : Nat),
      sent (scriptEvents env m sc) = sc.filterMap Step.sentByte := by
  intro sc
  induction sc with
  | nil => intro m; rfl
  | cons st rest ih =>
    intro m
    rw [scriptEvents, sent_append, sent_stepEvents, ih]
    cases st <;> rfl

/-! ## Sequences of the read and write transactions -/

/-- The primitives of the steps of the read loop follow the acknowledge pattern. -/
theorem readLoopScript_prims : ∀ n, (readLoopScript n).map Step.prim = ackPattern n
  | 0 => rfl
  | 1 => rfl
  | n + 2 => by
    rw [readLoopScript, List.map_cons, List.map_cons, readLoopScript_prims (n + 1), ackPattern]
    rfl

/-- The acknowledge pattern does not enter `i2c_Stop`. -/
theorem filter_notStop_ackPattern :
    ∀ n, (ackPattern n).filter (fun p => !isStopCall p) = ackPattern n
  | 0 => rfl
  | 1 => rfl
  | n + 2 => by
    rw [ackPattern, List.filter_append, filter_notStop_ackPattern (n + 1)]
    rfl

/-- The steps of the read loop send no byte. -/
theorem readLoopScript_sent : ∀ n, (readLoopScript n).filterMap Step.sentByte = []
  | 0 => rfl
  | 1 => rfl
  | n + 2 => by
    rw [readLoopScript, List.filterMap_cons, List.filterMap_cons, readLoopScript_sent (n + 1)]
    rfl

/-- The steps of the write loop send the buffer entries in order, each followed by
an acknowledge wait. -/
theorem writeLoopScript_eq (data : Buf) :
    ∀ (k count : Nat), writeLoopScript data k count =
      ((List.range k).map (fun i => data (count + i))).flatMap
        (fun b => [Step.send b, Step.ack]) := by
  intro k
  induction k with
  | zero => intro count; rfl
  | succ k ih =>
    intro count
    rw [writeLoopScript, ih, List.range_succ_eq_map, List.map_cons, List.flatMap_cons,
      List.map_map]
    have hfun : ((fun i => data (count + i)) ∘ Nat.succ) = fun i => data (count + 1 + i) := by
      funext i
      simp only [Function.comp, Nat.succ_eq_add_one]
      congr 1
      omega
    rw [hfun, Nat.add_zero]
    rfl

/-- The first primitive a sequence of steps enters is that of its first step. -/
theorem calls_scriptEvents_head (env : Env) (sc : List Step) (m : Nat) :
    (calls (scriptEvents env m sc)).head? = sc.head?.map Step.prim := by
  cases sc with
  | nil => rfl
  | cons st rest =>
    rw [scriptEvents, calls_append, calls_stepEvents]
    rfl

/-- A sequence of steps that ends with a STOP enters `i2c_Stop` last. -/
theorem calls_scriptEvents_last_stop (env : Env) (sc : List Step) (m : Nat) :
    (calls (scriptEvents env m (sc ++ [Step.stop]))).getLast? = some Prim.i2c_Stop := by
  rw [scriptEvents_append, calls_append]
  have h : calls (scriptEvents env (m + scriptSamples env m sc) [Step.stop]) = [Prim.i2c_Stop] :=
    rfl
  rw [h, List.getLast?_concat]

set_option maxRecDepth 100000 in
/-- Incrementing an address byte gives the read address exactly when its low bit is 0. -/
theorem incr_eq_or_one_iff : ∀ d, d < 256 → ((d + 1) % 256 = d ||| 1 ↔ d % 2 = 0) := by
  decide

/-- Send steps paired with acknowledge waits send exactly their bytes. -/
theorem sendAck_sent (l : List Nat) :
    (l.flatMap (fun b => [Step.send b, Step.ack])).filterMap Step.sentByte = l := by
  induction l with
  | nil => rfl
  | cons b l ih =>
    rw [List.flatMap_cons, List.filterMap_append, ih]
    rfl

/-- Send steps paired with acknowledge waits enter `i2c_SendByte` and `Slave_ACK` in turn. -/
theorem sendAck_prims (l : List Nat) :
    ((l.flatMap (fun b => [Step.send b, Step.ack])).map Step.prim).filter
        (fun p => !isStopCall p) =
      l.flatMap (fun b => [Prim.i2c_SendByte b, Prim.Slave_ACK]) := by
  induction l with
  | nil => rfl
  | cons b l ih =>
    rw [List.flatMap_cons, List.map_append, List.filter_append, ih, List.flatMap_cons]
    rfl

/-- Send steps paired with acknowledge waits hold no START and no STOP. -/
theorem sendAck_no_start_stop (l : List Nat) :
    (l.flatMap (fun b => [Step.send b, Step.ack])).countP Step.isStart = 0 ∧
    (l.flatMap (fun b => [Step.send b, Step.ack])).countP Step.isStop = 0 := by
  induction l with
  | nil => exact ⟨rfl, rfl⟩
  | cons b l ih =>
    rw [List.flatMap_cons, List.countP_append, List.countP_append, ih.1, ih.2]
    exact ⟨rfl, rfl⟩

/-- The steps of `I2C_WriteBytes` in terms of the bytes sent. -/
theorem writeBytesScript_eq (dev reg n : Nat) (data : Buf) :
    writeBytesScript dev reg n data =
      Step.start :: (dev :: reg :: (List.range n).map data).flatMap
        (fun b => [Step.send b, Step.ack]) ++ [Step.stop] := by
  rw [writeBytesScript, writeLoopScript_eq]
  simp only [Nat.zero_add, List.flatMap_cons, List.cons_append, List.nil_append]

/-- The bytes a step records as received. -/
theorem received_stepEvents (env : Env) (m : Nat) (st : Step) :
    received (stepEvents env m st) =
      match st with
      | Step.recv => [rxValue env m]
      | _ => [] := by
  cases st with
  | start => rfl
  | stop => rfl
  | send b => simp [stepEvents, received_txEvents]
  | ack => simp [stepEvents, received_ackEvents]
  | recv => simp [stepEvents, received_rxEvents]
  | mack => rfl
  | nack => rfl

/-! ## Bus conditions, framing and STOP counts -/

/-- One pass of the send loop entered with SCL low writes SDA only while SCL is
low and leaves SCL low. -/
theorem sdaWritesClockHigh_txBit (v : Bool) (t : List Ev) :
    sdaWritesClockHigh false (txBitEvents v ++ t) = sdaWritesClockHigh false t := by
  simp [txBitEvents, sdaWritesClockHigh]

/-- One pass of the send loop entered with SCL low produces no bus condition. -/
theorem busConditions_txBit (d v : Bool) (t : List Ev) :
    busConditions d false (txBitEvents v ++ t) = busConditions v false t := by
  simp [txBitEvents, busConditions]

/-- With SCL low at entry, `i2c_SendByte` writes SDA only while SCL is low. -/
theorem sdaWritesClockHigh_txEvents (b : Nat) : sdaWritesClockHigh false (txEvents b) = 0 := by
  simp only [txEvents, List.append_assoc, List.singleton_append, List.cons_append,
    List.nil_append, sdaWritesClockHigh_txBit]
  simp [sdaWritesClockHigh]

/-- With SCL low at entry, `i2c_SendByte` produces no bus condition. -/
theorem busConditions_txEvents (d : Bool) (b : Nat) : busConditions d false (txEvents b) = [] := by
  simp only [txEvents, List.append_assoc, List.singleton_append, List.cons_append,
    List.nil_append]
  simp [busConditions, busConditions_txBit]

/-- The result of `i2c_CheckDevice` when the bus does not read idle: only the
samples are taken. -/
theorem i2c_CheckDevice_not_idle_eq (env : Env) (wr addr : Nat) (s : Bus)
    (h : ¬ (env.sdaIn s.nSda = true ∧ env.sclIn s.nScl = true)) :
    ∃ k t, i2c_CheckDevice env wr addr s =
      some (1, { s with nSda := s.nSda + 1, nScl := s.nScl + k, trace := s.trace ++ t }) ∧
      calls t = [] ∧ stops t = 0 := by
  cases hsda : env.sdaIn s.nSda with
  | false =>
    exact ⟨0, [Ev.readSda false], by simp [i2c_CheckDevice, I2C_SDA_READ, hsda], rfl, rfl⟩
  | true =>
    have hscl : env.sclIn s.nScl = false := by
      cases hc : env.sclIn s.nScl with
      | false => rfl
      | true => exact absurd ⟨hsda, hc⟩ h
    exact ⟨1, [Ev.readSda true, Ev.readScl false],
      by simp [i2c_CheckDevice, I2C_SDA_READ, I2C_SCL_READ, hsda, hscl], rfl, rfl⟩

/-- An acknowledge wait times out exactly when the next 251 samples read high. -/
theorem ackOutcome_eq_none_iff (env : Env) (m : Nat) :
    ackOutcome env m = none ↔ ∀ k, k < 251 → env.sdaIn (m + k) = true := by
  constructor
  · intro h k hk
    exact firstLow_none env m 251 0 h k (Nat.zero_le k) (by omega)
  · intro h
    cases ho : ackOutcome env m with
    | none => rfl
    | some j =>
      obtain ⟨_, h2, _, h4⟩ := firstLow_some env m 251 0 j ho
      have := h j (by omega)
      rw [h4] at this
      exact absurd this (by decide)

/-- On a line that always reads high every acknowledge wait times out. -/
theorem scriptTimeouts_all_high (env : Env) (hhigh : ∀ k, env.sdaIn k = true) :
    ∀ (sc : List Step) (m : Nat), scriptTimeouts env m sc = sc.countP Step.isAck := by
  intro sc
  induction sc with
  | nil => intro m; rfl
  | cons st rest ih =>
    intro m
    rw [scriptTimeouts, ih, List.countP_cons]
    cases st with
    | ack =>
      have hnone : ackOutcome env m = none :=
        (ackOutcome_eq_none_iff env m).2 (fun k _ => hhigh (m + k))
      simp [stepTimesOut, hnone, Step.isAck]
      omega
    | _ => simp [stepTimesOut, Step.isAck]

/-- The write loop holds one acknowledge wait for each pass. -/
theorem writeLoopScript_acks (data : Buf) :
    ∀ (k count : Nat), (writeLoopScript data k count).countP Step.isAck = k ∧
      (writeLoopScript data k count).countP Step.isStop = 0 ∧
      (writeLoopScript data k count).countP Step.isStart = 0 := by
  intro k
  induction k with
  | zero => intro count; exact ⟨rfl, rfl, rfl⟩
  | succ k ih =>
    intro count
    obtain ⟨h1, h2, h3⟩ := ih (count + 1)
    rw [writeLoopScript]
    simp only [List.countP_cons, h1, h2, h3, Step.isAck, Step.isStop, Step.isStart]
    simp

/-- The read loop holds no START and no STOP. -/
theorem readLoopScript_no_start_stop :
    ∀ n, (readLoopScript n).countP Step.isStop = 0 ∧ (readLoopScript n).countP Step.isStart = 0
  | 0 => ⟨rfl, rfl⟩
  | 1 => ⟨rfl, rfl⟩
  | n + 2 => by
    obtain ⟨h1, h2⟩ := readLoopScript_no_start_stop (n + 1)
    rw [readLoopScript]
    simp only [List.countP_cons, h1, h2, Step.isStop, Step.isStart]
    simp

/-- The steps of `I2C_WriteBytes` hold one STOP, one START and `n + 2` acknowledge waits. -/
theorem writeBytesScript_counts (dev reg n : Nat) (data : Buf) :
    (writeBytesScript dev reg n data).countP Step.isStop = 1 ∧
    (writeBytesScript dev reg n data).countP Step.isStart = 1 ∧
    (writeBytesScript dev reg n data).countP Step.isAck = n + 2 := by
  obtain ⟨h1, h2, h3⟩ := writeLoopScript_acks data n 0
  simp only [writeBytesScript, List.countP_append, List.countP_cons, h1, h2, h3, Step.isAck,
    Step.isStop, Step.isStart, List.countP_nil]
  simp
  omega

/-- The steps of `I2C_ReadBytes` hold one STOP and two STARTs. -/
theorem readBytesScript_counts (dev reg n : Nat) :
    (readBytesScript dev reg n).countP Step.isStop = 1 ∧
    (readBytesScript dev reg n).countP Step.isStart = 2 := by
  obtain ⟨h1, h2⟩ := readLoopScript_no_start_stop n
  simp only [readBytesScript, List.countP_append, List.countP_cons, h1, h2,
    Step.isStop, Step.isStart, List.countP_nil]
  simp

/-- A sequence of steps that begins with a START and ends with its only STOP is
framed when no acknowledge wait times out. -/
theorem framed_scriptEvents (env : Env) (m : Nat) (body : List Step)
    (hstop : body.countP Step.isStop = 0)
    (hto : scriptTimeouts env m (Step.start :: body ++ [Step.stop]) = 0) :
    Framed (scriptEvents env m (Step.start :: body ++ [Step.stop])) := by
  refine ⟨?_, ?_, ?_⟩
  · rw [calls_scriptEvents_head]; rfl
  · rw [stops_scriptEvents, hto, List.countP_append, List.countP_cons, hstop]
    rfl
  · exact calls_scriptEvents_last_stop env (Step.start :: body) m

/-- Samples taken before a transaction do not change whether it is framed, nor
its entries into `i2c_Stop` and `i2c_Start`. -/
theorem reads_first (a b : Bool) (t : List Ev) :
    calls ([Ev.readSda a, Ev.readScl b] ++ t) = calls t ∧
    stops ([Ev.readSda a, Ev.readScl b] ++ t) = stops t ∧
    starts ([Ev.readSda a, Ev.readScl b] ++ t) = starts t := by
  refine ⟨?_, ?_, ?_⟩
  · rw [calls_append]; rfl
  · rw [stops_append]
    have h : stops [Ev.readSda a, Ev.readScl b] = 0 := by simp [stops]
    rw [h, Nat.zero_add]
  · rw [starts_append]
    have h : starts [Ev.readSda a, Ev.readScl b] = 0 := by simp [starts, isStartEntry]
    rw [h, Nat.zero_add]

/-! ## The simulated peripheral and the round trip -/

/-- The peripheral after two traces run one after the other. -/
theorem prun_append (dev : Nat) (p : Periph) (t u : List Ev) :
    prun dev p (t ++ u) = prun dev (prun dev p t) u := by
  simp [prun, List.foldl_append]

/-- Consistency of two traces run one after the other. -/
theorem consistent_append (dev : Nat) :
    ∀ (t : List Ev) (p : Periph) (u : List Ev),
      consistent dev p (t ++ u) = (consistent dev p t && consistent dev (prun dev p t) u) := by
  intro t
  induction t with
  | nil => intro p u; simp [consistent, prun]
  | cons e t ih =>
    intro p u
    cases e <;> simp [consistent, prun, ih, pstep, Bool.and_assoc]

/-- A trace without samples of SDA is consistent. -/
theorem consistent_of_no_reads (dev : Nat) :
    ∀ (t : List Ev) (p : Periph), sdaSamples t = 0 → consistent dev p t = true := by
  intro t
  induction t with
  | nil => intro p _; rfl
  | cons e t ih =>
    intro p h
    cases e with
    | readSda v => simp [sdaSamples, isSdaRead] at h
    | sda v => exact ih _ (by simpa [sdaSamples, isSdaRead, List.countP_cons] using h)
    | scl v => exact ih _ (by simpa [sdaSamples, isSdaRead, List.countP_cons] using h)
    | speed => exact ih _ (by simpa [sdaSamples, isSdaRead, List.countP_cons] using h)
    | readScl v => exact ih _ (by simpa [sdaSamples, isSdaRead, List.countP_cons] using h)
    | call q => exact ih _ (by simpa [sdaSamples, isSdaRead, List.countP_cons] using h)
    | rx v => exact ih _ (by simpa [sdaSamples, isSdaRead, List.countP_cons] using h)

/-- Eight bits shifted in, most significant first, give the byte back. -/
theorem shifted_bits (b : Nat) (hb : b < 256) :
    2 * (2 * (2 * (2 * (2 * (2 * (2 * (b.testBit 7).toNat + (b.testBit 6).toNat)
      + (b.testBit 5).toNat) + (b.testBit 4).toNat) + (b.testBit 3).toNat)
      + (b.testBit 2).toNat) + (b.testBit 1).toNat) + (b.testBit 0).toNat = b := by
  have h := byte_of_bits b hb
  omega

/-- The peripheral after a START, from rest. -/
theorem prun_start_idle (dev : Nat) (a b : Bool) (q : Nat) (f : Nat → Nat) :
    prun dev ⟨a, b, true, PMode.idle, 0, 0, q, f⟩ startEvents =
      ⟨false, false, true, PMode.addr, 0, 0, q, f⟩ := by
  cases a <;> cases b <;>
    simp [prun, startEvents, pstep, onRising, onFalling, Periph.line]

/-- The peripheral after a repeated START that follows the register byte. -/
theorem prun_start_wdata (dev : Nat) (q : Nat) (f : Nat → Nat) :
    prun dev ⟨true, false, true, PMode.wdata, 0, 0, q, f⟩ startEvents =
      ⟨false, false, true, PMode.addr, 0, 0, q, f⟩ := by
  simp [prun, startEvents, pstep, onRising, onFalling, Periph.line]

/-- The peripheral after the device address with write direction. -/
theorem prun_tx_addr_write (dev : Nat) (hdev : dev < 256) (a : Bool) (q : Nat) (f : Nat → Nat) :
    prun dev ⟨a, false, true, PMode.addr, 0, 0, q, f⟩ (txEvents dev) =
      ⟨true, false, false, PMode.reg, 9, dev, q, f⟩ := by
  have h := shifted_bits dev hdev
  simp only [Nat.testBit_zero] at h
  simp [prun, txEvents, txBitEvents, pstep, onRising, onFalling, byteDone, Periph.line, h]

/-- The peripheral after the device address with read direction. -/
theorem prun_tx_addr_read (dev : Nat) (a : Bool) (q : Nat) (f : Nat → Nat) :
    prun dev ⟨a, false, true, PMode.addr, 0, 0, q, f⟩ (txEvents ((dev + 1) % 256)) =
      ⟨true, false, false, PMode.rdata, 9, (dev + 1) % 256, q, f⟩ := by
  have h := shifted_bits ((dev + 1) % 256) (Nat.mod_lt _ (by decide))
  simp only [Nat.testBit_zero] at h
  have hne : ¬ ((dev + 1) % 256 = dev) := by omega
  simp [prun, txEvents, txBitEvents, pstep, onRising, onFalling, byteDone, Periph.line, h, hne]

/-- The peripheral after the register byte. -/
theorem prun_tx_reg (dev b : Nat) (hb : b < 256) (a : Bool) (q : Nat) (f : Nat → Nat) :
    prun dev ⟨a, false, true, PMode.reg, 0, 0, q, f⟩ (txEvents b) =
      ⟨true, false, false, PMode.wdata, 9, b, b, f⟩ := by
  have h := shifted_bits b hb
  simp only [Nat.testBit_zero] at h
  simp [prun, txEvents, txBitEvents, pstep, onRising, onFalling, byteDone, Periph.line, h]

/-- The peripheral after a data byte: the byte is stored and the pointer moves on. -/
theorem prun_tx_wdata (dev b : Nat) (hb : b < 256) (a : Bool) (q : Nat) (f : Nat → Nat) :
    prun dev ⟨a, false, true, PMode.wdata, 0, 0, q, f⟩ (txEvents b) =
      ⟨true, false, false, PMode.wdata, 9, b, q + 1, Function.update f q b⟩ := by
  have h := shifted_bits b hb
  simp only [Nat.testBit_zero] at h
  simp [prun, txEvents, txBitEvents, pstep, onRising, onFalling, byteDone, Periph.line, h]

/-- While the peripheral gives its ACK, an acknowledge wait is consistent only
when its first sample reads low. -/
theorem consistent_ack (dev : Nat) (m : PMode) (sh q : Nat) (f : Nat → Nat) (o : Option Nat)
    (h : consistent dev ⟨true, false, false, m, 9, sh, q, f⟩ (ackEvents o) = true) :
    o = some 0 := by
  cases o with
  | none =>
    have h251 : List.replicate 251 (Ev.readSda true)
        = Ev.readSda true :: List.replicate 250 (Ev.readSda true) := rfl
    rw [ackEvents, ackFailEvents, h251] at h
    generalize List.replicate 250 (Ev.readSda true) = l at h
    cases m <;>
      simp [ackPrelude, consistent, pstep, onRising, onFalling, Periph.line] at h
  | some k =>
    cases k with
    | zero => rfl
    | succ k =>
      rw [ackEvents, ackOkEvents, List.replicate_succ] at h
      cases m <;>
        simp [ackPrelude, consistent, pstep, onRising, onFalling, Periph.line] at h

/-- The peripheral after its ACK of a received byte: SDA released, ready for the
next byte. -/
theorem prun_ack_receive (dev : Nat) (m : PMode) (hm : m = PMode.reg ∨ m = PMode.wdata)
    (sh q : Nat) (f : Nat → Nat) :
    prun dev ⟨true, false, false, m, 9, sh, q, f⟩ (ackEvents (some 0)) =
      ⟨true, false, true, m, 0, 0, q, f⟩ := by
  rcases hm with rfl | rfl <;>
    simp [prun, ackEvents, ackOkEvents, ackPrelude, pstep, onRising, onFalling, Periph.line]

/-- The peripheral after its ACK of the read address: the first bit of the
register at the pointer is on SDA. -/
theorem prun_ack_rdata (dev : Nat) (sh q : Nat) (f : Nat → Nat) :
    prun dev ⟨true, false, false, PMode.rdata, 9, sh, q, f⟩ (ackEvents (some 0)) =
      ⟨true, false, (f q).testBit 7, PMode.rdata, 0, sh, q, f⟩ := by
  simp [prun, ackEvents, ackOkEvents, ackPrelude, pstep, onRising, onFalling, Periph.line]

/-- The peripheral after the STOP that ends a write. -/
theorem prun_stop_wdata (dev : Nat) (q : Nat) (f : Nat → Nat) :
    prun dev ⟨true, false, true, PMode.wdata, 0, 0, q, f⟩ stopEvents =
      ⟨true, true, true, PMode.idle, 0, 0, q, f⟩ := by
  simp [prun, stopEvents, pstep, onRising, onFalling, Periph.line]

/-- While the peripheral sends a byte, a received byte is consistent only when
the eight samples are the bits of the register at the pointer, most significant
bit first. -/
theorem consistent_rx (dev : Nat) (env : Env) (m sh q : Nat) (f : Nat → Nat)
    (h : consistent dev ⟨true, false, (f q).testBit 7, PMode.rdata, 0, sh, q, f⟩
      (rxEvents env m) = true) :
    env.sdaIn m = (f q).testBit 7 ∧ env.sdaIn (m + 1) = (f q).testBit 6 ∧
    env.sdaIn (m + 2) = (f q).testBit 5 ∧ env.sdaIn (m + 3) = (f q).testBit 4 ∧
    env.sdaIn (m + 4) = (f q).testBit 3 ∧ env.sdaIn (m + 5) = (f q).testBit 2 ∧
    env.sdaIn (m + 6) = (f q).testBit 1 ∧ env.sdaIn (m + 7) = (f q).testBit 0 := by
  simpa [rxEvents, rxBitEvents, consistent, pstep, onRising, onFalling, Periph.line] using h

/-- The peripheral after sending a byte: SDA released for the master's answer. -/
theorem prun_rx (dev : Nat) (env : Env) (m sh q : Nat) (f : Nat → Nat) :
    prun dev ⟨true, false, (f q).testBit 7, PMode.rdata, 0, sh, q, f⟩ (rxEvents env m) =
      ⟨true, false, true, PMode.rdata, 8, sh, q, f⟩ := by
  simp [prun, rxEvents, rxBitEvents, pstep, onRising, onFalling, Periph.line]

/-- The peripheral after the master's ACK: the first bit of the next register is
on SDA. -/
theorem prun_mack (dev : Nat) (sh q : Nat) (f : Nat → Nat) :
    prun dev ⟨true, false, true, PMode.rdata, 8, sh, q, f⟩ mackEvents =
      ⟨true, false, (f (q + 1)).testBit 7, PMode.rdata, 0, sh, q + 1, f⟩ := by
  simp [prun, mackEvents, pstep, onRising, onFalling, Periph.line]

/-- The peripheral after the master's NACK: it stops sending. -/
theorem prun_nack (dev : Nat) (sh q : Nat) (f : Nat → Nat) :
    prun dev ⟨true, false, true, PMode.rdata, 8, sh, q, f⟩ nackEvents =
      ⟨true, false, true, PMode.idle, 8, sh, q, f⟩ := by
  simp [prun, nackEvents, pstep, onRising, onFalling, Periph.line]

/-- The write loop leaves the registers below its pointer alone. -/
theorem writeMem_below (data : Buf) :
    ∀ (k c p : Nat) (g : Nat → Nat) (j : Nat), j < p → writeMem data k c p g j = g j := by
  intro k
  induction k with
  | zero => intro c p g j _; rfl
  | succ k ihk =>
    intro c p g j hj
    rw [writeMem, ihk (c + 1) (p + 1) _ j (by omega), Function.update_noteq (by omega)]

/-- The registers written by the write loop hold the buffer entries in order. -/
theorem writeMem_apply (data : Buf) :
    ∀ (k count q : Nat) (f : Nat → Nat) (i : Nat), i < k →
      writeMem data k count q f (q + i) = data (count + i) := by
  intro k
  induction k with
  | zero => intro count q f i hi; omega
  | succ k ih =>
    intro count q f i hi
    rw [writeMem]
    cases i with
    | zero =>
      simp only [Nat.add_zero]
      rw [writeMem_below data k (count + 1) (q + 1) _ q (by omega)]
      simp
    | succ i =>
      have h := ih (count + 1) (q + 1) (Function.update f q (data count)) i (by omega)
      have e1 : q + (i + 1) = q + 1 + i := by omega
      have e2 : count + (i + 1) = count + 1 + i := by omega
      rw [e1, e2, h]

/-- A consistent run of the write loop stores the buffer entries at consecutive
registers; each of its acknowledge waits takes one sample. -/
theorem write_loop_consistent (dev : Nat) (env : Env) (data : Buf) :
    ∀ (k count m q : Nat) (f : Nat → Nat), (∀ i, i < k → data (count + i) < 256) →
      consistent dev ⟨true, false, true, PMode.wdata, 0, 0, q, f⟩
        (scriptEvents env m (writeLoopScript data k count)) = true →
      prun dev ⟨true, false, true, PMode.wdata, 0, 0, q, f⟩
          (scriptEvents env m (writeLoopScript data k count)) =
        ⟨true, false, true, PMode.wdata, 0, 0, q + k, writeMem data k count q f⟩ ∧
      scriptSamples env m (writeLoopScript data k count) = k := by
  intro k
  induction k with
  | zero => intro count m q f _ _; exact ⟨rfl, rfl⟩
  | succ k ih =>
    intro count m q f hdata hc
    have hb : data count < 256 := by simpa using hdata 0 (Nat.succ_pos k)
    simp only [writeLoopScript, scriptEvents, scriptSamples, stepEvents, stepSamples,
      Nat.add_zero] at hc ⊢
    rw [consistent_append, consistent_append, prun_tx_wdata dev _ hb,
      Bool.and_eq_true, Bool.and_eq_true] at hc
    obtain ⟨_, hack, hrest⟩ := hc
    have ho := consistent_ack dev _ _ _ _ _ hack
    rw [ho] at hrest ⊢
    rw [prun_ack_receive dev _ (Or.inr rfl)] at hrest
    obtain ⟨h1, h2⟩ := ih (count + 1) (m + ackSamples (some 0)) (q + 1) _
      (fun i hi => by
        have := hdata (i + 1) (by omega)
        rwa [show count + (i + 1) = count + 1 + i from by omega] at this) hrest
    rw [prun_append, prun_append, prun_tx_wdata dev _ hb, prun_ack_receive dev _ (Or.inr rfl),
      h1, h2, writeMem]
    refine ⟨?_, ?_⟩
    · rw [show q + 1 + k = q + (k + 1) from by omega]
    · simp [ackSamples]; omega

/-- A consistent run of the steps of `I2C_WriteBytes` against the peripheral, from
rest: every acknowledge wait takes one sample, the buffer entries end up at the
registers `reg, reg + 1, ...`, and the peripheral is at rest again. -/
theorem write_consistent (dev reg n : Nat) (env : Env) (data : Buf) (hdev : dev < 256)
    (hreg : reg < 256) (hdata : ∀ i, i < n → data i < 256) (a b : Bool) (m q : Nat)
    (f : Nat → Nat)
    (hc : consistent dev ⟨a, b, true, PMode.idle, 0, 0, q, f⟩
      (scriptEvents env m (writeBytesScript dev reg n data)) = true) :
    prun dev ⟨a, b, true, PMode.idle, 0, 0, q, f⟩
        (scriptEvents env m (writeBytesScript dev reg n data)) =
      ⟨true, true, true, PMode.idle, 0, 0, reg + n, writeMem data n 0 reg f⟩ ∧
    scriptSamples env m (writeBytesScript dev reg n data) = n + 2 := by
  simp only [writeBytesScript, scriptEvents_append, scriptSamples_append] at hc ⊢
  simp only [scriptEvents, scriptSamples, stepEvents, stepSamples, Nat.add_zero, Nat.zero_add,
    List.append_nil, List.append_assoc] at hc ⊢
  -- START and the device address
  rw [consistent_append, prun_start_idle, consistent_append, prun_tx_addr_write dev hdev,
    consistent_append] at hc
  simp only [Bool.and_eq_true] at hc
  obtain ⟨_, _, hack1, hc⟩ := hc
  have ho1 := consistent_ack dev _ _ _ _ _ hack1
  rw [ho1] at hc ⊢
  -- the register byte
  rw [prun_ack_receive dev _ (Or.inl rfl), consistent_append, prun_tx_reg dev reg hreg,
    consistent_append] at hc
  simp only [Bool.and_eq_true] at hc
  obtain ⟨_, hack2, hc⟩ := hc
  have ho2 := consistent_ack dev _ _ _ _ _ hack2
  rw [ho2] at hc ⊢
  -- the data bytes
  rw [prun_ack_receive dev _ (Or.inr rfl), consistent_append] at hc
  simp only [Bool.and_eq_true] at hc
  obtain ⟨hloop, _⟩ := hc
  obtain ⟨h1, h2⟩ := write_loop_consistent dev env data n 0 _ reg f
    (fun i hi => by simpa using hdata i hi) hloop
  rw [prun_append, prun_start_idle, prun_append, prun_tx_addr_write dev hdev, prun_append,
    prun_ack_receive dev _ (Or.inl rfl), prun_append, prun_tx_reg dev reg hreg, prun_append,
    prun_ack_receive dev _ (Or.inr rfl), prun_append, h1, prun_stop_wdata, h2]
  exact ⟨rfl, by simp [ackSamples]; omega⟩

/-- A byte received while the peripheral sends the register at its pointer is
that register. -/
theorem rxValue_of_consistent (dev : Nat) (env : Env) (m sh q : Nat) (f : Nat → Nat)
    (hf : f q < 256)
    (h : consistent dev ⟨true, false, (f q).testBit 7, PMode.rdata, 0, sh, q, f⟩
      (rxEvents env m) = true) :
    rxValue env m = f q := by
  obtain ⟨h0, h1, h2, h3, h4, h5, h6, h7⟩ := consistent_rx dev env m sh q f h
  rw [rxValue, h0, h1, h2, h3, h4, h5, h6, h7]
  exact byte_of_bits (f q) hf

/-- A consistent run of the read loop receives the registers from the pointer on,
in order. -/
theorem read_loop_consistent (dev : Nat) (env : Env) :
    ∀ (k m sh q : Nat) (f : Nat → Nat),
      consistent dev ⟨true, false, (f q).testBit 7, PMode.rdata, 0, sh, q, f⟩
        (scriptEvents env m (readLoopScript k)) = true →
      ∀ i, i < k → f (q + i) < 256 → rxValue env (m + 8 * i) = f (q + i)
  | 0, _, _, _, _, _, i, hi, _ => absurd hi (Nat.not_lt_zero i)
  | 1, m, sh, q, f, hc, i, hi, hf => by
    obtain rfl : i = 0 := by omega
    simp only [readLoopScript, scriptEvents, stepEvents, stepSamples] at hc
    rw [consistent_append, Bool.and_eq_true] at hc
    simpa using rxValue_of_consistent dev env m sh q f (by simpa using hf) hc.1
  | k + 2, m, sh, q, f, hc, i, hi, hf => by
    simp only [readLoopScript, scriptEvents, stepEvents, stepSamples, Nat.add_zero] at hc
    rw [consistent_append, consistent_append, prun_rx, prun_mack] at hc
    simp only [Bool.and_eq_true] at hc
    obtain ⟨hrx, _, hrest⟩ := hc
    cases i with
    | zero => simpa using rxValue_of_consistent dev env m sh q f (by simpa using hf) hrx
    | succ i =>
      have h := read_loop_consistent dev env (k + 1) (m + 8) sh (q + 1) f hrest i (by omega)
        (by rwa [show q + 1 + i = q + (i + 1) from by omega])
      rw [show m + 8 * (i + 1) = m + 8 + 8 * i from by omega,
        show q + (i + 1) = q + 1 + i from by omega]
      exact h

/-- A consistent run of the steps of `I2C_ReadBytes` against the peripheral, from
rest: the three acknowledge waits take one sample each, and the bytes received
are the registers `reg, reg + 1, ...` in order. -/
theorem read_consistent (dev reg n : Nat) (env : Env) (hdev : dev < 256) (hreg : reg < 256)
    (a b : Bool) (m q : Nat) (f : Nat → Nat)
    (hc : consistent dev ⟨a, b, true, PMode.idle, 0, 0, q, f⟩
      (scriptEvents env m (readBytesScript dev reg n)) = true) :
    scriptSamples env m [Step.start, Step.send dev, Step.ack, Step.send reg, Step.ack,
      Step.start, Step.send ((dev + 1) % 256), Step.ack] = 3 ∧
    ∀ i, i < n → f (reg + i) < 256 → rxValue env (m + 3 + 8 * i) = f (reg + i) := by
  simp only [readBytesScript, scriptEvents_append, scriptSamples_append] at hc
  simp only [scriptEvents, scriptSamples, stepEvents, stepSamples, Nat.add_zero, Nat.zero_add,
    List.append_nil, List.append_assoc] at hc ⊢
  rw [consistent_append, prun_start_idle, consistent_append, prun_tx_addr_write dev hdev,
    consistent_append] at hc
  simp only [Bool.and_eq_true] at hc
  obtain ⟨_, _, hack1, hc⟩ := hc
  have ho1 := consistent_ack dev _ _ _ _ _ hack1
  rw [ho1] at hc ⊢
  rw [prun_ack_receive dev _ (Or.inl rfl), consistent_append, prun_tx_reg dev reg hreg,
    consistent_append] at hc
  simp only [Bool.and_eq_true] at hc
  obtain ⟨_, hack2, hc⟩ := hc
  have ho2 := consistent_ack dev _ _ _ _ _ hack2
  rw [ho2] at hc ⊢
  rw [prun_ack_receive dev _ (Or.inr rfl), consistent_append, prun_start_wdata,
    consistent_append, prun_tx_addr_read, consistent_append] at hc
  simp only [Bool.and_eq_true] at hc
  obtain ⟨_, _, hack3, hc⟩ := hc
  have ho3 := consistent_ack dev _ _ _ _ _ hack3
  rw [ho3] at hc ⊢
  rw [prun_ack_rdata, consistent_append] at hc
  simp only [Bool.and_eq_true] at hc
  obtain ⟨hloop, _⟩ := hc
  refine ⟨by simp [ackSamples], ?_⟩
  intro i hi hf
  have h := read_loop_consistent dev env n _ _ reg f hloop i hi hf
  simpa [ackSamples, Nat.add_assoc] using h

/-! ## Claims -/

/-- C1 (Slave_ACK timeout): from every starting state, when SDA reads high on each
of the next 251 samples, `Slave_ACK` samples SDA exactly 251 times, then runs
`i2c_Stop` and returns 1, and the master ends with SDA and SCL both released. -/
theorem C1_Slave_ACK_timeout (env : Env) (s : Bus)
    (h : ∀ k, k < 251 → env.sdaIn (s.nSda + k) = true) :
    ∃ st, Slave_ACK env s = some (1, st) ∧
      st.trace = s.trace ++ ackPrelude ++ List.replicate 251 (Ev.readSda true) ++ stopEvents ∧
      st = i2c_Stop (polledHigh 251
        (i2c_Speed (I2C_SCL_1 (i2c_Speed (I2C_SDA_1 (log (Ev.call Prim.Slave_ACK) s)))))) ∧
      sdaSamples st.trace = sdaSamples s.trace + 251 ∧
      st.nSda = s.nSda + 251 ∧
      st.sda = true ∧ st.scl = true := by
  refine ⟨_, Slave_ACK_timeout_eq env s h, rfl, ?_, ?_, rfl, rfl, rfl⟩
  · simp only [polledHigh]
    generalize List.replicate 251 (Ev.readSda true) = l
    simp [i2c_Stop, log, I2C_SDA_1, I2C_SDA_0, I2C_SCL_1, i2c_Speed, ackPrelude, stopEvents]
  · exact sdaSamples_timeout_trace 251 s.trace

/-- Witness for C1: an idle master and a line that always reads high. -/
theorem C1_Slave_ACK_timeout_witness :
    ∃ st, Slave_ACK ⟨fun _ => true, fun _ => true⟩ ⟨true, true, 0, 0, []⟩ = some (1, st) ∧
      st.trace = [] ++ ackPrelude ++ List.replicate 251 (Ev.readSda true) ++ stopEvents ∧
      st = i2c_Stop (polledHigh 251
        (i2c_Speed (I2C_SCL_1 (i2c_Speed (I2C_SDA_1
          (log (Ev.call Prim.Slave_ACK) ⟨true, true, 0, 0, []⟩)))))) ∧
      sdaSamples st.trace = sdaSamples [] + 251 ∧
      st.nSda = 0 + 251 ∧
      st.sda = true ∧ st.scl = true :=
  C1_Slave_ACK_timeout ⟨fun _ => true, fun _ => true⟩ ⟨true, true, 0, 0, []⟩ (fun _ _ => rfl)

/-- C2 (Slave_ACK success): for every stream of SDA samples `Slave_ACK` returns, and
it returns 0 if and only if one of the next 251 samples reads low.  When the first
low sample is the one at index `k` (counting from 0, so it is the `k + 1`-th sample),
`Slave_ACK` returns 0 after exactly `k + 1` samples of SDA, does not enter `i2c_Stop`,
and ends with SCL driven low and SDA released. -/
theorem C2_Slave_ACK_success (env : Env) (s : Bus) :
    (∃ r st, Slave_ACK env s = some (r, st) ∧
      (r = 0 ↔ ∃ k, k < 251 ∧ env.sdaIn (s.nSda + k) = false)) ∧
    (∀ k, k < 251 → (∀ j, j < k → env.sdaIn (s.nSda + j) = true) →
      env.sdaIn (s.nSda + k) = false →
      ∃ st, Slave_ACK env s = some (0, st) ∧
        st.trace = s.trace ++ ackPrelude ++ List.replicate k (Ev.readSda true)
          ++ [Ev.readSda false, Ev.scl false] ∧
        sdaSamples st.trace = sdaSamples s.trace + (k + 1) ∧
        st.nSda = s.nSda + (k + 1) ∧
        stops st.trace = stops s.trace ∧
        st.scl = false ∧ st.sda = true) := by
  constructor
  · rcases first_low_or_all_high (fun k => env.sdaIn (s.nSda + k)) with h | ⟨k, hk, hhigh, hlow⟩
    · refine ⟨1, _, Slave_ACK_timeout_eq env s h, ?_⟩
      constructor
      · intro h10
        exact absurd h10 (by decide)
      · rintro ⟨k, hk, hlow⟩
        have := h k hk
        simp only [] at this
        rw [hlow] at this
        exact absurd this (by decide)
    · exact ⟨0, _, Slave_ACK_ack_eq env s k hk hhigh hlow, fun _ => ⟨k, hk, hlow⟩, fun _ => rfl⟩
  · intro k hk hhigh hlow
    exact ⟨_, Slave_ACK_ack_eq env s k hk hhigh hlow, rfl, sdaSamples_ack_trace k s.trace, rfl,
      stops_ack_trace k s.trace, rfl, rfl⟩

/-- Witness for C2: the line reads high twice and low from the third sample on. -/
theorem C2_Slave_ACK_success_witness :
    ∃ st, Slave_ACK ⟨fun k => decide (k < 2), fun _ => true⟩ ⟨false, false, 0, 0, []⟩
        = some (0, st) ∧
      st.trace = [] ++ ackPrelude ++ List.replicate 2 (Ev.readSda true)
        ++ [Ev.readSda false, Ev.scl false] ∧
      sdaSamples st.trace = sdaSamples [] + (2 + 1) ∧
      st.nSda = 0 + (2 + 1) ∧
      stops st.trace = stops [] ∧
      st.scl = false ∧ st.sda = true :=
  (C2_Slave_ACK_success ⟨fun k => decide (k < 2), fun _ => true⟩ ⟨false, false, 0, 0, []⟩).2 2
    (by decide) (fun j hj => by simpa using hj) (by decide)

/-- C3 (i2c_ReceiveByte is MSB first): for every stream of SDA samples, with
`s0, ..., s7` the next eight samples in order, `i2c_ReceiveByte` returns
`s0*128 + s1*64 + s2*32 + s3*16 + s4*8 + s5*4 + s6*2 + s7`; it samples SDA
exactly eight times, each sample taken between a release of SCL and the
following drive of SCL low; it never writes SDA, and it leaves SCL driven low. -/
theorem C3_i2c_ReceiveByte_msb_first (env : Env) (s : Bus) :
    (i2c_ReceiveByte env s).1 =
      (env.sdaIn s.nSda).toNat * 128 + (env.sdaIn (s.nSda + 1)).toNat * 64
        + (env.sdaIn (s.nSda + 2)).toNat * 32 + (env.sdaIn (s.nSda + 3)).toNat * 16
        + (env.sdaIn (s.nSda + 4)).toNat * 8 + (env.sdaIn (s.nSda + 5)).toNat * 4
        + (env.sdaIn (s.nSda + 6)).toNat * 2 + (env.sdaIn (s.nSda + 7)).toNat ∧
    (i2c_ReceiveByte env s).2.trace =
      s.trace ++ [Ev.call Prim.i2c_ReceiveByte]
        ++ [Ev.scl true, Ev.speed, Ev.readSda (env.sdaIn s.nSda), Ev.scl false, Ev.speed]
        ++ [Ev.scl true, Ev.speed, Ev.readSda (env.sdaIn (s.nSda + 1)), Ev.scl false, Ev.speed]
        ++ [Ev.scl true, Ev.speed, Ev.readSda (env.sdaIn (s.nSda + 2)), Ev.scl false, Ev.speed]
        ++ [Ev.scl true, Ev.speed, Ev.readSda (env.sdaIn (s.nSda + 3)), Ev.scl false, Ev.speed]
        ++ [Ev.scl true, Ev.speed, Ev.readSda (env.sdaIn (s.nSda + 4)), Ev.scl false, Ev.speed]
        ++ [Ev.scl true, Ev.speed, Ev.readSda (env.sdaIn (s.nSda + 5)), Ev.scl false, Ev.speed]
        ++ [Ev.scl true, Ev.speed, Ev.readSda (env.sdaIn (s.nSda + 6)), Ev.scl false, Ev.speed]
        ++ [Ev.scl true, Ev.speed, Ev.readSda (env.sdaIn (s.nSda + 7)), Ev.scl false, Ev.speed]
        ++ [Ev.rx (i2c_ReceiveByte env s).1] ∧
    sdaSamples (i2c_ReceiveByte env s).2.trace = sdaSamples s.trace + 8 ∧
    (i2c_ReceiveByte env s).2.nSda = s.nSda + 8 ∧
    List.countP isSdaWrite (i2c_ReceiveByte env s).2.trace = List.countP isSdaWrite s.trace ∧
    (i2c_ReceiveByte env s).2.sda = s.sda ∧
    (i2c_ReceiveByte env s).2.scl = false := by
  rw [i2c_ReceiveByte_eq]
  refine ⟨rfl, ?_, ?_, rfl, ?_, rfl, rfl⟩
  · simp [rxEvents, rxBitEvents]
  · simp [sdaSamples, rxEvents, rxBitEvents, List.countP_append, List.countP_cons, isSdaRead]
  · simp [rxEvents, rxBitEvents, List.countP_append, List.countP_cons, isSdaWrite]

/-- C4 (i2c_SendByte is MSB first): for every byte `b` and starting state,
`i2c_SendByte b` releases SCL exactly eight times; the level the master has on
SDA at the `i`-th of these (`i = 0..7`) is bit `7 - i` of `b` (released for 1,
driven low for 0); after the eighth pulse SDA is released and SCL is driven low. -/
theorem C4_i2c_SendByte_msb_first (b : Nat) (s : Bus) :
    (i2c_SendByte b s).trace =
      s.trace ++ [Ev.call (Prim.i2c_SendByte b)]
        ++ [Ev.sda (b.testBit 7), Ev.speed, Ev.scl true, Ev.speed, Ev.scl false, Ev.speed]
        ++ [Ev.sda (b.testBit 6), Ev.speed, Ev.scl true, Ev.speed, Ev.scl false, Ev.speed]
        ++ [Ev.sda (b.testBit 5), Ev.speed, Ev.scl true, Ev.speed, Ev.scl false, Ev.speed]
        ++ [Ev.sda (b.testBit 4), Ev.speed, Ev.scl true, Ev.speed, Ev.scl false, Ev.speed]
        ++ [Ev.sda (b.testBit 3), Ev.speed, Ev.scl true, Ev.speed, Ev.scl false, Ev.speed]
        ++ [Ev.sda (b.testBit 2), Ev.speed, Ev.scl true, Ev.speed, Ev.scl false, Ev.speed]
        ++ [Ev.sda (b.testBit 1), Ev.speed, Ev.scl true, Ev.speed, Ev.scl false, Ev.speed]
        ++ [Ev.sda (b.testBit 0), Ev.speed, Ev.scl true, Ev.speed, Ev.scl false,
            Ev.sda true, Ev.speed] ∧
    sclPulses ((i2c_SendByte b s).trace.drop s.trace.length) = 8 ∧
    sdaAtClockHigh s.sda ((i2c_SendByte b s).trace.drop s.trace.length) =
      [b.testBit 7, b.testBit 6, b.testBit 5, b.testBit 4,
       b.testBit 3, b.testBit 2, b.testBit 1, b.testBit 0] ∧
    (∀ i, i < 8 →
      (sdaAtClockHigh s.sda ((i2c_SendByte b s).trace.drop s.trace.length))[i]? =
        some (b.testBit (7 - i))) ∧
    (i2c_SendByte b s).sda = true ∧
    (i2c_SendByte b s).scl = false := by
  rw [i2c_SendByte_eq]
  refine ⟨?_, ?_, ?_, ?_, rfl, rfl⟩
  · simp [txEvents, txBitEvents]
  · simp only [drop_old_trace]
    simp [sclPulses, txEvents, txBitEvents, List.countP_cons, isSclRelease]
  · simp only [drop_old_trace, sdaAtClockHigh_txEvents]
  · intro i hi
    simp only [drop_old_trace, sdaAtClockHigh_txEvents]
    interval_cases i <;> rfl

/-- C5 (loopback round trip): for every byte `b`, when the eight samples of SDA
that `i2c_ReceiveByte` takes are, in order, the eight levels the master had on
SDA at the eight clock pulses of `i2c_SendByte b`, `i2c_ReceiveByte` returns `b`. -/
theorem C5_send_receive_loopback (env : Env) (b : Nat) (hb : b < 256) (s s2 : Bus)
    (h : (List.range 8).map (fun i => env.sdaIn (s2.nSda + i)) =
      sdaAtClockHigh s.sda ((i2c_SendByte b s).trace.drop s.trace.length)) :
    (i2c_ReceiveByte env s2).1 = b := by
  rw [i2c_SendByte_eq] at h
  simp only [drop_old_trace, sdaAtClockHigh_txEvents] at h
  simp only [List.range, List.range.loop, List.map, Nat.add_zero, List.cons.injEq, and_true]
    at h
  obtain ⟨h0, h1, h2, h3, h4, h5, h6, h7⟩ := h
  rw [i2c_ReceiveByte_eq]
  simp only [rxValue, h0, h1, h2, h3, h4, h5, h6, h7]
  exact byte_of_bits b hb

/-- Witness for C5: the byte 0xA5 sent from an idle bus and read back. -/
theorem C5_send_receive_loopback_witness :
    (i2c_ReceiveByte
      ⟨fun k => [true, false, true, false, false, true, false, true].getD k true, fun _ => true⟩
      ⟨true, false, 0, 0, []⟩).1 = 0xA5 :=
  C5_send_receive_loopback
    ⟨fun k => [true, false, true, false, false, true, false, true].getD k true, fun _ => true⟩
    0xA5 (by decide) ⟨true, true, 0, 0, []⟩ ⟨true, false, 0, 0, []⟩
    (by
      rw [i2c_SendByte_eq]
      simp only [drop_old_trace, sdaAtClockHigh_txEvents]
      decide)

/-- C6 (i2c_CheckDevice on a bus that is not idle): for every address, when the
sample of SDA at entry reads low, or the sample of SCL reads low,
`i2c_CheckDevice` returns 1 and performs no pin write and enters no bus
primitive: it only samples (SDA, and SCL when SDA read high), so the master's
drive of SDA and SCL is unchanged. -/
theorem C6_i2c_CheckDevice_not_idle (env : Env) (wr addr : Nat) (s : Bus)
    (h : env.sdaIn s.nSda = false ∨ env.sclIn s.nScl = false) :
    ∃ st, i2c_CheckDevice env wr addr s = some (1, st) ∧
      st.sda = s.sda ∧ st.scl = s.scl ∧
      st.trace = s.trace ++
        (if env.sdaIn s.nSda then [Ev.readSda true, Ev.readScl false] else [Ev.readSda false]) ∧
      List.countP isPinWrite st.trace = List.countP isPinWrite s.trace ∧
      calls st.trace = calls s.trace := by
  cases hsda : env.sdaIn s.nSda with
  | false =>
    refine ⟨{ s with nSda := s.nSda + 1, trace := s.trace ++ [Ev.readSda false] },
      by simp [i2c_CheckDevice, I2C_SDA_READ, hsda], rfl, rfl, ?_, ?_, ?_⟩
    · simp
    · simp [List.countP_append, isPinWrite]
    · simp [calls_append, calls]
  | true =>
    have hscl : env.sclIn s.nScl = false := by
      rcases h with h | h
      · rw [hsda] at h; exact absurd h (by decide)
      · exact h
    refine ⟨{ s with nSda := s.nSda + 1, nScl := s.nScl + 1,
                     trace := s.trace ++ [Ev.readSda true, Ev.readScl false] },
      by simp [i2c_CheckDevice, I2C_SDA_READ, I2C_SCL_READ, hsda, hscl], rfl, rfl, ?_, ?_, ?_⟩
    · simp
    · simp [List.countP_append, isPinWrite]
    · simp [calls_append, calls]

/-- Witness for C6: SDA reads high and SCL reads low at entry. -/
theorem C6_i2c_CheckDevice_not_idle_witness :
    ∃ st, i2c_CheckDevice ⟨fun _ => true, fun _ => false⟩ 0 0xA0 ⟨true, true, 0, 0, []⟩
        = some (1, st) ∧
      st.sda = true ∧ st.scl = true ∧
      st.trace = [] ++
        (if (fun _ => true) 0 then [Ev.readSda true, Ev.readScl false] else [Ev.readSda false]) ∧
      List.countP isPinWrite st.trace = List.countP isPinWrite [] ∧
      calls st.trace = calls [] :=
  C6_i2c_CheckDevice_not_idle ⟨fun _ => true, fun _ => false⟩ 0 0xA0 ⟨true, true, 0, 0, []⟩
    (Or.inr rfl)

/-- C7 (i2c_CheckDevice on an idle bus): for every address, when SDA and SCL both
read high at entry, `i2c_CheckDevice` enters `i2c_Start`, sends the single byte
`Address | I2C_WR`, runs one `Slave_ACK` and then `i2c_Stop`, and returns what
`Slave_ACK` returned: 0 if and only if one of the next 251 samples of SDA reads
low, 1 otherwise.  In both cases the master ends with SDA and SCL released. -/
theorem C7_i2c_CheckDevice_idle (env : Env) (wr addr : Nat) (s : Bus)
    (hsda : env.sdaIn s.nSda = true) (hscl : env.sclIn s.nScl = true) :
    ∃ ack s4,
      Slave_ACK env (i2c_SendByte ((addr ||| wr) % 256)
        (i2c_Start (I2C_SCL_READ env (I2C_SDA_READ env s).2).2)) = some (ack, s4) ∧
      i2c_CheckDevice env wr addr s = some (ack, i2c_Stop s4) ∧
      (ack = 0 ∨ ack = 1) ∧
      (ack = 0 ↔ ∃ k, k < 251 ∧ env.sdaIn (s.nSda + 1 + k) = false) ∧
      calls ((i2c_Stop s4).trace.drop s.trace.length) =
        [Prim.i2c_Start, Prim.i2c_SendByte ((addr ||| wr) % 256), Prim.Slave_ACK]
          ++ (if ack = 0 then [] else [Prim.i2c_Stop]) ++ [Prim.i2c_Stop] ∧
      (i2c_Stop s4).sda = true ∧ (i2c_Stop s4).scl = true := by
  have hidle := i2c_CheckDevice_idle_eq env wr addr s hsda hscl
  rw [probe_sent_eq] at hidle ⊢
  rw [hsda, hscl] at hidle ⊢
  rcases Slave_ACK_cases env
    { sda := true, scl := false, nSda := s.nSda + 1, nScl := s.nScl + 1,
      trace := s.trace ++ ([Ev.readSda true, Ev.readScl true]
        ++ startEvents ++ txEvents ((addr ||| wr) % 256)) }
    with ⟨k, hk, _, hlow, hres⟩ | ⟨hall, hres⟩
  · refine ⟨0, _, hres, ?_, Or.inl rfl, ?_, ?_, ?_, ?_⟩
    · rw [hidle, hres]; rfl
    · exact ⟨fun _ => ⟨k, hk, hlow⟩, fun _ => rfl⟩
    · rw [i2c_Stop_eq]
      simp only [ackOk, List.append_assoc, drop_old_trace, calls_append, calls_startEvents,
        calls_txEvents, calls_ackOkEvents, calls_stopEvents]
      rfl
    · rw [i2c_Stop_eq]
    · rw [i2c_Stop_eq]
  · refine ⟨1, _, hres, ?_, Or.inr rfl, ?_, ?_, ?_, ?_⟩
    · rw [hidle, hres]; rfl
    · constructor
      · intro h10
        exact absurd h10 (by decide)
      · rintro ⟨k, hk, hlow⟩
        have := hall k hk
        simp only [] at this
        rw [hlow] at this
        exact absurd this (by decide)
    · rw [i2c_Stop_eq]
      simp only [ackFail, List.append_assoc, drop_old_trace, calls_append, calls_startEvents,
        calls_txEvents, calls_ackFailEvents, calls_stopEvents]
      rfl
    · rw [i2c_Stop_eq]
    · rw [i2c_Stop_eq]

/-- Witness for C7: a device that pulls SDA low as soon as the acknowledge is
awaited is found, and both lines end released. -/
theorem C7_i2c_CheckDevice_idle_witness :
    ∃ st, i2c_CheckDevice ⟨fun k => decide (k = 0), fun _ => true⟩ 0 0xA0
        ⟨true, true, 0, 0, []⟩ = some (0, st) ∧ st.sda = true ∧ st.scl = true := by
  obtain ⟨ack, s4, _, hres, _, hiff, _, h1, h2⟩ :=
    C7_i2c_CheckDevice_idle ⟨fun k => decide (k = 0), fun _ => true⟩ 0 0xA0
      ⟨true, true, 0, 0, []⟩ rfl rfl
  have hack : ack = 0 := hiff.2 ⟨0, by decide, rfl⟩
  subst hack
  exact ⟨_, hres, h1, h2⟩

/-- C8 as amended (i2c_CheckDevice with an absent device): for every address,
when the bus reads idle at entry and the next 251 samples of SDA read high,
`i2c_CheckDevice` returns 1 after exactly 251 polls of SDA in the acknowledge
wait (252 samples of SDA in all, with the idle check), and `i2c_Stop` has been
entered before it returns (twice: by the timed-out wait and by
`i2c_CheckDevice`); both lines end released. -/
theorem C8_i2c_CheckDevice_absent (env : Env) (wr addr : Nat) (s : Bus)
    (hsda : env.sdaIn s.nSda = true) (hscl : env.sclIn s.nScl = true)
    (habs : ∀ k, k < 251 → env.sdaIn (s.nSda + 1 + k) = true) :
    ∃ st, i2c_CheckDevice env wr addr s = some (1, st) ∧
      st.trace = s.trace ++ ([Ev.readSda true, Ev.readScl true] ++ startEvents
        ++ txEvents ((addr ||| wr) % 256)
        ++ (ackPrelude ++ List.replicate 251 (Ev.readSda true) ++ stopEvents) ++ stopEvents) ∧
      ackPolls (st.trace.drop s.trace.length) = 251 ∧
      sdaSamples (st.trace.drop s.trace.length) = 252 ∧
      stops (st.trace.drop s.trace.length) = 2 ∧
      st.sda = true ∧ st.scl = true := by
  refine ⟨_, i2c_CheckDevice_absent_eq env wr addr s hsda hscl habs, rfl, ?_, ?_, ?_, rfl, rfl⟩
  · simp only [drop_old_trace]
    exact ackPolls_probe _ 251 true true
  · simp only [drop_old_trace, sdaSamples_append, sdaSamples_txEvents, sdaSamples_ackFailEvents]
    rfl
  · simp only [drop_old_trace, stops_append, stops_txEvents, stops_ackFailEvents]
    rfl

/-- Witness for C8: an idle bus on which SDA always reads high. -/
theorem C8_i2c_CheckDevice_absent_witness :
    ∃ st, i2c_CheckDevice ⟨fun _ => true, fun _ => true⟩ 0 0xA0 ⟨true, true, 0, 0, []⟩
        = some (1, st) ∧
      ackPolls st.trace = 251 ∧ sdaSamples st.trace = 252 ∧ stops st.trace = 2 ∧
      st.sda = true ∧ st.scl = true := by
  obtain ⟨st, hres, _, h1, h2, h3, h4, h5⟩ :=
    C8_i2c_CheckDevice_absent ⟨fun _ => true, fun _ => true⟩ 0 0xA0 ⟨true, true, 0, 0, []⟩
      rfl rfl (fun _ _ => rfl)
  exact ⟨st, hres, h1, h2, h3, h4, h5⟩

/-- C8 as stated fails: on an idle bus on which SDA always reads high, the probe
of address 0xA0 returns 1 only after 251 polls of SDA in the acknowledge wait,
which is more than 250. -/
theorem C8_poll_bound_counterexample :
    ∃ st, i2c_CheckDevice ⟨fun _ => true, fun _ => true⟩ 0 0xA0 ⟨true, true, 0, 0, []⟩
        = some (1, st) ∧
      ackPolls st.trace = 251 ∧ ¬ (ackPolls st.trace ≤ 250) := by
  refine ⟨_, i2c_CheckDevice_absent_eq ⟨fun _ => true, fun _ => true⟩ 0 0xA0
    ⟨true, true, 0, 0, []⟩ rfl rfl (fun _ _ => rfl), ?_⟩
  have h : ackPolls ([] ++ ([Ev.readSda true, Ev.readScl true] ++ startEvents
      ++ txEvents ((0xA0 ||| 0) % 256) ++ ackFailEvents ++ stopEvents)) = 251 := by
    rw [List.nil_append]
    exact ackPolls_probe _ 251 true true
  exact ⟨h, by rw [h]; decide⟩

/-- C9 (I2C_ReadBytes acknowledge pattern): for every `dev`, `reg` and length `n` with
`1 <= n <= 255`, among the primitives `I2C_ReadBytes` enters, those that receive
or answer a byte are, in order, `n - 1` times `i2c_ReceiveByte` followed by
`Mster_ACK`, then `i2c_ReceiveByte` followed by `Mster_NOACK`; exactly `n` bytes
are received.  `Mster_ACK` has SDA driven low at its clock pulse and `Mster_NOACK`
has SDA released at its clock pulse. -/
theorem C9_I2C_ReadBytes_ack_pattern (env : Env) (dev reg n : Nat) (data : Buf) (s : Bus)
    (h1 : 1 ≤ n) (hn : n < 256) :
    ∃ st data', I2C_ReadBytes env dev reg n data s = some (n, st, data') ∧
      (calls (st.trace.drop s.trace.length)).filter isRxAck =
        (List.replicate (n - 1) [Prim.i2c_ReceiveByte, Prim.Mster_ACK]).flatten
          ++ [Prim.i2c_ReceiveByte, Prim.Mster_NOACK] ∧
      (received (st.trace.drop s.trace.length)).length = n ∧
      (∀ b : Bus, (Mster_ACK b).trace = b.trace ++ mackEvents ∧
        sdaAtClockHigh b.sda mackEvents = [false]) ∧
      (∀ b : Bus, (Mster_NOACK b).trace = b.trace ++ nackEvents ∧
        sdaAtClockHigh b.sda nackEvents = [true]) := by
  obtain ⟨o1, o2, o3, h⟩ := I2C_ReadBytes_eq env dev reg n data s hn
  refine ⟨_, _, h, ?_, ?_, ?_, ?_⟩
  · obtain ⟨k, rfl⟩ : ∃ k, n = k + 1 := ⟨n - 1, by omega⟩
    simp only [drop_old_trace, calls_append, calls_startEvents, calls_txEvents, calls_stopEvents,
      calls_readLoopEvents env (k + 1) (k + 1) 0 _ (by omega), List.filter_append,
      calls_ackEvents_filter, Nat.add_sub_cancel]
    rw [filter_ackPattern, ackPattern_succ]
    simp [List.filter, isRxAck]
  · simp only [drop_old_trace, received_append, received_txEvents, received_ackEvents,
      received_readLoopEvents]
    simp [received, startEvents, stopEvents]
  · intro b
    exact ⟨by rw [Mster_ACK_eq], by cases b.sda <;> rfl⟩
  · intro b
    exact ⟨by rw [Mster_NOACK_eq], by cases b.sda <;> rfl⟩

/-- Witness for C9: `dev = 0xA0`, `reg = 0x10`, `n = 3` gives ACK, ACK, NACK. -/
theorem C9_I2C_ReadBytes_ack_pattern_witness :
    ∃ st data', I2C_ReadBytes readExampleEnv 0xA0 0x10 3 (fun _ => 0) ⟨true, true, 0, 0, []⟩
        = some (3, st, data') ∧
      (calls st.trace).filter isRxAck =
        [Prim.i2c_ReceiveByte, Prim.Mster_ACK, Prim.i2c_ReceiveByte, Prim.Mster_ACK,
         Prim.i2c_ReceiveByte, Prim.Mster_NOACK] := by
  obtain ⟨st, data', hres, hpat, _⟩ :=
    C9_I2C_ReadBytes_ack_pattern readExampleEnv 0xA0 0x10 3 (fun _ => 0) ⟨true, true, 0, 0, []⟩
      (by decide) (by decide)
  exact ⟨st, data', hres, hpat⟩

/-- C10 (I2C_ReadBytes result): for every `dev`, `reg`, every length `n` in 0..255 and
every stream of SDA samples (so every outcome of the acknowledge waits),
`I2C_ReadBytes` returns exactly `n`; the buffer entries `data[0..n-1]` are, in
order, the bytes returned by `i2c_ReceiveByte` (each assembled from the next eight
samples), and the entries at index `n` and above are unchanged. -/
theorem C10_I2C_ReadBytes_result (env : Env) (dev reg n : Nat) (data : Buf) (s : Bus)
    (hn : n < 256) :
    ∃ st data', I2C_ReadBytes env dev reg n data s = some (n, st, data') ∧
      (List.range n).map data' = received (st.trace.drop s.trace.length) ∧
      (∃ m, m + 8 * n = st.nSda ∧ ∀ i, i < n → data' i = rxValue env (m + 8 * i)) ∧
      (∀ i, n ≤ i → data' i = data i) := by
  obtain ⟨o1, o2, o3, h⟩ := I2C_ReadBytes_eq env dev reg n data s hn
  refine ⟨_, _, h, ?_, ⟨_, rfl, ?_⟩, ?_⟩
  · simp only [drop_old_trace, received_append, received_txEvents, received_ackEvents,
      received_readLoopEvents]
    have h0 : received startEvents = [] := rfl
    have h9 : received stopEvents = [] := rfl
    rw [h0, h9]
    simp only [List.nil_append, List.append_nil]
    apply List.map_congr_left
    intro i hi
    have hi' : i < n := List.mem_range.mp hi
    rw [readLoopData_apply]
    have hc : 0 ≤ i ∧ i < 0 + n := by omega
    rw [if_pos hc, Nat.sub_zero]
  · intro i hi
    rw [readLoopData_apply]
    have hc : 0 ≤ i ∧ i < 0 + n := by omega
    rw [if_pos hc, Nat.sub_zero]
  · intro i hi
    rw [readLoopData_apply]
    have hc : ¬ (0 ≤ i ∧ i < 0 + n) := by omega
    rw [if_neg hc]

set_option maxRecDepth 20000 in
/-- Witness for C10: a peripheral that acknowledges at once and supplies 0x11, 0x22, 0x33;
with `n = 3` the buffer holds these bytes and the return value is 3. -/
theorem C10_I2C_ReadBytes_result_witness :
    ∃ st data', I2C_ReadBytes readExampleEnv 0xA0 0x10 3 (fun _ => 0) ⟨true, true, 0, 0, []⟩
        = some (3, st, data') ∧
      data' 0 = 0x11 ∧ data' 1 = 0x22 ∧ data' 2 = 0x33 ∧ data' 3 = 0 := by
  obtain ⟨st, data', hres, _, ⟨m, hm, hval⟩, hrest⟩ :=
    C10_I2C_ReadBytes_result readExampleEnv 0xA0 0x10 3 (fun _ => 0) ⟨true, true, 0, 0, []⟩
      (by decide)
  have hev : (I2C_ReadBytes readExampleEnv 0xA0 0x10 3 (fun _ => 0) ⟨true, true, 0, 0, []⟩).map
      (fun r => r.2.1.nSda) = some 27 := by rfl
  rw [hres] at hev
  simp only [Option.map_some', Option.some.injEq] at hev
  have hm3 : m = 3 := by omega
  subst hm3
  refine ⟨st, data', hres, ?_, ?_, ?_, hrest 3 (le_refl 3)⟩
  · rw [hval 0 (by decide)]; rfl
  · rw [hval 1 (by decide)]; rfl
  · rw [hval 2 (by decide)]; rfl

/-- C11 (read direction by increment): for every 8-bit `dev` (and length below
256), the bytes `I2C_ReadBytes` passes to `i2c_SendByte` are `dev`, `reg` and
`(dev + 1) mod 256`, the last one right after the repeated `i2c_Start`; and
`(dev + 1) mod 256` equals the conventional read address `dev | 1` if and only
if the low bit of `dev` is 0. -/
theorem C11_I2C_ReadBytes_read_address (env : Env) (dev reg n : Nat) (data : Buf) (s : Bus)
    (hdev : dev < 256) (hn : n < 256) :
    ∃ st data', I2C_ReadBytes env dev reg n data s = some (n, st, data') ∧
      sent (st.trace.drop s.trace.length) = [dev, reg, (dev + 1) % 256] ∧
      (calls (st.trace.drop s.trace.length)).filter (fun p => !isStopCall p) =
        [Prim.i2c_Start, Prim.i2c_SendByte dev, Prim.Slave_ACK,
         Prim.i2c_SendByte reg, Prim.Slave_ACK,
         Prim.i2c_Start, Prim.i2c_SendByte ((dev + 1) % 256), Prim.Slave_ACK]
          ++ ackPattern n ∧
      ((dev + 1) % 256 = dev ||| 1 ↔ dev % 2 = 0) := by
  refine ⟨_, _, I2C_ReadBytes_script env dev reg n data s hn, ?_, ?_,
    incr_eq_or_one_iff dev hdev⟩
  · simp only [drop_old_trace, sent_scriptEvents, readBytesScript, List.filterMap_append,
      readLoopScript_sent]
    rfl
  · simp only [drop_old_trace, calls_scriptEvents_filter, readBytesScript, List.map_append,
      List.filter_append, readLoopScript_prims, filter_notStop_ackPattern]
    have h9 : List.filter (fun p => !isStopCall p) (List.map Step.prim [Step.stop]) = [] := rfl
    rw [h9, List.append_nil]
    rfl

/-- Witness for C11: `dev = 0xA0`, whose low bit is 0, is followed by the read
address 0xA1. -/
theorem C11_I2C_ReadBytes_read_address_witness :
    ∃ st data', I2C_ReadBytes readExampleEnv 0xA0 0x10 3 (fun _ => 0) ⟨true, true, 0, 0, []⟩
        = some (3, st, data') ∧
      sent st.trace = [0xA0, 0x10, 0xA1] := by
  obtain ⟨st, data', hres, hsent, _⟩ :=
    C11_I2C_ReadBytes_read_address readExampleEnv 0xA0 0x10 3 (fun _ => 0)
      ⟨true, true, 0, 0, []⟩ (by decide) (by decide)
  exact ⟨st, data', hres, hsent⟩

/-- C12 (I2C_WriteBytes never propagates an acknowledge failure): for every `dev`,
`reg`, length `n` below 256, buffer and stream of SDA samples (so whatever the
acknowledge waits return, all failing included), `I2C_WriteBytes` returns 1; the
bytes passed to `i2c_SendByte` are exactly `dev`, `reg`, `data[0]`, ...,
`data[n-1]` in that order, each followed by one `Slave_ACK`; the first primitive
entered is the one `i2c_Start` and the last one is `i2c_Stop`.  The buffer is an
input only. -/
theorem C12_I2C_WriteBytes_no_propagation (env : Env) (dev reg n : Nat) (data : Buf) (s : Bus)
    (hn : n < 256) :
    ∃ st, I2C_WriteBytes env dev reg n data s = some (1, st) ∧
      sent (st.trace.drop s.trace.length) = dev :: reg :: (List.range n).map data ∧
      (calls (st.trace.drop s.trace.length)).filter (fun p => !isStopCall p) =
        Prim.i2c_Start :: (dev :: reg :: (List.range n).map data).flatMap
          (fun b => [Prim.i2c_SendByte b, Prim.Slave_ACK]) ∧
      starts (st.trace.drop s.trace.length) = 1 ∧
      (calls (st.trace.drop s.trace.length)).head? = some Prim.i2c_Start ∧
      (calls (st.trace.drop s.trace.length)).getLast? = some Prim.i2c_Stop := by
  refine ⟨_, I2C_WriteBytes_script env dev reg n data s hn, ?_, ?_, ?_, ?_, ?_⟩
  · simp only [drop_old_trace, sent_scriptEvents, writeBytesScript_eq, List.filterMap_cons,
      List.filterMap_append, sendAck_sent]
    simp [Step.sentByte]
  · simp only [drop_old_trace, calls_scriptEvents_filter, writeBytesScript_eq, List.map_cons,
      List.map_append, List.filter_cons, List.filter_append, sendAck_prims]
    simp [isStopCall, Step.prim]
  · simp only [drop_old_trace, starts_scriptEvents, writeBytesScript_eq, List.countP_cons,
      List.countP_append, (sendAck_no_start_stop _).1]
    simp [Step.isStart]
  · simp only [drop_old_trace, calls_scriptEvents_head, writeBytesScript_eq]
    rfl
  · simp only [drop_old_trace, writeBytesScript_eq]
    exact calls_scriptEvents_last_stop env _ _

/-- Witness for C12: three bytes written to a peripheral that never acknowledges. -/
theorem C12_I2C_WriteBytes_no_propagation_witness :
    ∃ st, I2C_WriteBytes ⟨fun _ => true, fun _ => true⟩ 0xA0 0x10 3
        (fun i => [0x11, 0x22, 0x33].getD i 0) ⟨true, true, 0, 0, []⟩ = some (1, st) ∧
      sent st.trace = [0xA0, 0x10, 0x11, 0x22, 0x33] := by
  obtain ⟨st, hres, hsent, _⟩ :=
    C12_I2C_WriteBytes_no_propagation ⟨fun _ => true, fun _ => true⟩ 0xA0 0x10 3
      (fun i => [0x11, 0x22, 0x33].getD i 0) ⟨true, true, 0, 0, []⟩ (by decide)
  exact ⟨st, hres, hsent⟩

/-- C13 (I2C_ReadByte sequence): for every address and stream of SDA samples,
`I2C_ReadByte` enters, in order, `i2c_Start`, `i2c_SendByte 0xA0`, `Slave_ACK`,
`i2c_SendByte address`, `Slave_ACK`, `i2c_Start`, `i2c_SendByte 0xA1`,
`Slave_ACK`, `i2c_ReceiveByte`, `Mster_NOACK`, `i2c_Stop` (a `Slave_ACK` that
times out enters `i2c_Stop` itself before returning, which is `x1`, `x2`, `x3`),
and returns exactly the byte `i2c_ReceiveByte` returned, whatever the three
acknowledge waits return. -/
theorem C13_I2C_ReadByte_sequence (env : Env) (address : Nat) (s : Bus) :
    ∃ v st x1 x2 x3, I2C_ReadByte env address s = some (v, st) ∧
      (x1 = [] ∨ x1 = [Prim.i2c_Stop]) ∧ (x2 = [] ∨ x2 = [Prim.i2c_Stop]) ∧
      (x3 = [] ∨ x3 = [Prim.i2c_Stop]) ∧
      calls (st.trace.drop s.trace.length) =
        [Prim.i2c_Start, Prim.i2c_SendByte 0xA0, Prim.Slave_ACK] ++ x1
          ++ [Prim.i2c_SendByte address, Prim.Slave_ACK] ++ x2
          ++ [Prim.i2c_Start, Prim.i2c_SendByte 0xA1, Prim.Slave_ACK] ++ x3
          ++ [Prim.i2c_ReceiveByte, Prim.Mster_NOACK, Prim.i2c_Stop] ∧
      (calls (st.trace.drop s.trace.length)).filter (fun p => !isStopCall p) =
        [Prim.i2c_Start, Prim.i2c_SendByte 0xA0, Prim.Slave_ACK,
         Prim.i2c_SendByte address, Prim.Slave_ACK,
         Prim.i2c_Start, Prim.i2c_SendByte 0xA1, Prim.Slave_ACK,
         Prim.i2c_ReceiveByte, Prim.Mster_NOACK] ∧
      received (st.trace.drop s.trace.length) = [v] := by
  refine ⟨_, _,
    (if (ackOutcome env s.nSda).isNone then [Prim.i2c_Stop] else []),
    (if (ackOutcome env (s.nSda + ackSamples (ackOutcome env s.nSda))).isNone
      then [Prim.i2c_Stop] else []),
    (if (ackOutcome env (s.nSda + (ackSamples (ackOutcome env s.nSda)
        + ackSamples (ackOutcome env (s.nSda + ackSamples (ackOutcome env s.nSda)))))).isNone
      then [Prim.i2c_Stop] else []),
    I2C_ReadByte_script env address s, ?_, ?_, ?_, ?_, ?_, ?_⟩
  · split
    · exact Or.inr rfl
    · exact Or.inl rfl
  · split
    · exact Or.inr rfl
    · exact Or.inl rfl
  · split
    · exact Or.inr rfl
    · exact Or.inl rfl
  · simp only [drop_old_trace, readByteScript, scriptEvents, calls_append, calls_stepEvents,
      stepTimesOut, stepSamples, Step.prim, Nat.add_zero, Nat.add_assoc]
    simp [calls]
  · simp only [drop_old_trace, calls_scriptEvents_filter]
    rfl
  · simp only [drop_old_trace, readByteScript, scriptEvents, scriptSamples, received_append,
      received_stepEvents, stepSamples, Nat.add_zero, Nat.zero_add, Nat.add_assoc]
    simp [received]

/-- C17 (i2c_Start sequence): from every starting pin state, `i2c_Start` performs
exactly, in order, release SDA, release SCL, wait, drive SDA low, wait, drive SCL
low, wait.  When it drives SDA low the master has SDA and SCL released, so this
is a START condition (the last condition the function produces); the function
ends with SCL and SDA both driven low. -/
theorem C17_i2c_Start_sequence (s : Bus) :
    (i2c_Start s).trace = s.trace ++ [Ev.call Prim.i2c_Start, Ev.sda true, Ev.scl true,
      Ev.speed, Ev.sda false, Ev.speed, Ev.scl false, Ev.speed] ∧
    i2c_Start s = i2c_Speed (I2C_SCL_0 (i2c_Speed (I2C_SDA_0
      (i2c_Speed (I2C_SCL_1 (I2C_SDA_1 (log (Ev.call Prim.i2c_Start) s))))))) ∧
    (i2c_Speed (I2C_SCL_1 (I2C_SDA_1 (log (Ev.call Prim.i2c_Start) s)))).sda = true ∧
    (i2c_Speed (I2C_SCL_1 (I2C_SDA_1 (log (Ev.call Prim.i2c_Start) s)))).scl = true ∧
    busConditions s.sda s.scl ((i2c_Start s).trace.drop s.trace.length) =
      (if s.scl && !s.sda then [Cond.stop] else []) ++ [Cond.start] ∧
    (i2c_Start s).sda = false ∧ (i2c_Start s).scl = false := by
  refine ⟨?_, rfl, rfl, rfl, ?_, rfl, rfl⟩
  · rw [i2c_Start_eq]; rfl
  · rw [i2c_Start_eq]
    simp only [drop_old_trace]
    cases s.sda <;> cases s.scl <;> rfl

/-- C18 (i2c_Stop sequence): from every starting pin state, the pin writes of
`i2c_Stop` are, in order, drive SDA low, release SCL, release SDA, with a wait
between the release of SCL and the release of SDA.  When it releases SDA the
master has SCL released and SDA driven low, so this is a STOP condition (the
last condition the function produces); the function ends with both lines
released. -/
theorem C18_i2c_Stop_sequence (s : Bus) :
    (i2c_Stop s).trace = s.trace ++ [Ev.call Prim.i2c_Stop, Ev.sda false, Ev.scl true,
      Ev.speed, Ev.sda true, Ev.speed] ∧
    ((i2c_Stop s).trace.drop s.trace.length).filter isPinWrite =
      [Ev.sda false, Ev.scl true, Ev.sda true] ∧
    i2c_Stop s = i2c_Speed (I2C_SDA_1
      (i2c_Speed (I2C_SCL_1 (I2C_SDA_0 (log (Ev.call Prim.i2c_Stop) s))))) ∧
    (i2c_Speed (I2C_SCL_1 (I2C_SDA_0 (log (Ev.call Prim.i2c_Stop) s)))).sda = false ∧
    (i2c_Speed (I2C_SCL_1 (I2C_SDA_0 (log (Ev.call Prim.i2c_Stop) s)))).scl = true ∧
    busConditions s.sda s.scl ((i2c_Stop s).trace.drop s.trace.length) =
      (if s.scl && s.sda then [Cond.start] else []) ++ [Cond.stop] ∧
    (i2c_Stop s).sda = true ∧ (i2c_Stop s).scl = true := by
  refine ⟨?_, ?_, rfl, rfl, rfl, ?_, rfl, rfl⟩
  · rw [i2c_Stop_eq]; rfl
  · rw [i2c_Stop_eq]
    simp only [drop_old_trace]
    rfl
  · rw [i2c_Stop_eq]
    simp only [drop_old_trace]
    cases s.sda <;> cases s.scl <;> rfl

/-- C19 (data stable while the clock is high in i2c_SendByte): for every byte
`b`, when the master has SCL driven low at entry, every write to SDA inside
`i2c_SendByte b` is made while SCL is driven low, and the function produces no
START and no STOP condition. -/
theorem C19_i2c_SendByte_data_stable (b : Nat) (s : Bus) (hscl : s.scl = false) :
    sdaWritesClockHigh s.scl ((i2c_SendByte b s).trace.drop s.trace.length) = 0 ∧
    busConditions s.sda s.scl ((i2c_SendByte b s).trace.drop s.trace.length) = [] ∧
    sclPulses ((i2c_SendByte b s).trace.drop s.trace.length) = 8 := by
  rw [i2c_SendByte_eq, hscl]
  simp only [drop_old_trace]
  refine ⟨sdaWritesClockHigh_txEvents b, busConditions_txEvents s.sda b, ?_⟩
  simp [sclPulses, txEvents, txBitEvents, List.countP_cons, isSclRelease]

/-- Witness for C19: the byte 0xA5 sent right after a START. -/
theorem C19_i2c_SendByte_data_stable_witness :
    sdaWritesClockHigh false ((i2c_SendByte 0xA5 ⟨false, false, 0, 0, []⟩).trace.drop 0) = 0 ∧
    busConditions false false ((i2c_SendByte 0xA5 ⟨false, false, 0, 0, []⟩).trace.drop 0) = [] ∧
    sclPulses ((i2c_SendByte 0xA5 ⟨false, false, 0, 0, []⟩).trace.drop 0) = 8 :=
  C19_i2c_SendByte_data_stable 0xA5 ⟨false, false, 0, 0, []⟩ rfl

/-- C16 (bus-idle invariant): for all arguments and all SDA and SCL samples,
`SIM_I2C_Init` (its closing STOP), `I2C_WriteByte`, `I2C_ReadByte`, and, for a
length below 256, `I2C_WriteBytes` and `I2C_ReadBytes` end with the master having
SDA and SCL released, from any starting pin state; `i2c_CheckDevice` does so as
well when the bus reads idle at entry, and leaves the master's drive unchanged
otherwise, so it too preserves "both lines released". -/
theorem C16_bus_idle_invariant (env : Env) (wr addr address data_value dev reg n : Nat)
    (data buf : Buf) (s : Bus) (hn : n < 256) :
    ((SIM_I2C_Init s).sda = true ∧ (SIM_I2C_Init s).scl = true) ∧
    (∃ r st, i2c_CheckDevice env wr addr s = some (r, st) ∧
      (env.sdaIn s.nSda = true ∧ env.sclIn s.nScl = true → st.sda = true ∧ st.scl = true) ∧
      (¬ (env.sdaIn s.nSda = true ∧ env.sclIn s.nScl = true) →
        st.sda = s.sda ∧ st.scl = s.scl) ∧
      (s.sda = true ∧ s.scl = true → st.sda = true ∧ st.scl = true)) ∧
    (∃ st, I2C_WriteByte env address data_value s = some st ∧
      st.sda = true ∧ st.scl = true) ∧
    (∃ v st, I2C_ReadByte env address s = some (v, st) ∧ st.sda = true ∧ st.scl = true) ∧
    (∃ st, I2C_WriteBytes env dev reg n data s = some (1, st) ∧
      st.sda = true ∧ st.scl = true) ∧
    (∃ st buf', I2C_ReadBytes env dev reg n buf s = some (n, st, buf') ∧
      st.sda = true ∧ st.scl = true) := by
  refine ⟨⟨rfl, rfl⟩, ?_, ⟨_, I2C_WriteByte_script env address data_value s, rfl, rfl⟩,
    ⟨_, _, I2C_ReadByte_script env address s, rfl, rfl⟩,
    ⟨_, I2C_WriteBytes_script env dev reg n data s hn, rfl, rfl⟩,
    ⟨_, _, I2C_ReadBytes_script env dev reg n buf s hn, rfl, rfl⟩⟩
  by_cases hidle : env.sdaIn s.nSda = true ∧ env.sclIn s.nScl = true
  · exact ⟨_, _, i2c_CheckDevice_idle_script env wr addr s hidle.1 hidle.2,
      fun _ => ⟨rfl, rfl⟩, fun h => absurd hidle h, fun _ => ⟨rfl, rfl⟩⟩
  · obtain ⟨k, t, hres, _, _⟩ := i2c_CheckDevice_not_idle_eq env wr addr s hidle
    exact ⟨_, _, hres, fun h => absurd h hidle, fun _ => ⟨rfl, rfl⟩, fun h => h⟩

/-- Witness for C16: three bytes read from the example peripheral. -/
theorem C16_bus_idle_invariant_witness :
    ∃ st buf', I2C_ReadBytes readExampleEnv 0xA0 0x10 3 (fun _ => 0) ⟨false, false, 0, 0, []⟩
        = some (3, st, buf') ∧ st.sda = true ∧ st.scl = true :=
  (C16_bus_idle_invariant readExampleEnv 0 0xA0 0x10 0x55 0xA0 0x10 3 (fun _ => 0) (fun _ => 0)
    ⟨false, false, 0, 0, []⟩ (by decide)).2.2.2.2.2

/-- C15 (transaction framing on the success path): for `i2c_CheckDevice` on a bus
that reads idle, `I2C_WriteByte`, `I2C_ReadByte`, and, for a length below 256,
`I2C_WriteBytes` and `I2C_ReadBytes`, and for all arguments: when no acknowledge
wait times out, the primitives entered are exactly those of the operation's
steps, so `i2c_Start` is the first primitive entered, `i2c_Stop` is entered
exactly once, as the last primitive, and the master ends with both lines
released.  `i2c_Start` is entered once by the probe and the writes and twice
(START and repeated START) by the reads. -/
theorem C15_transaction_framing (env : Env) (wr addr address data_value dev reg n : Nat)
    (data buf : Buf) (s : Bus) (hn : n < 256) :
    (env.sdaIn s.nSda = true → env.sclIn s.nScl = true →
      scriptTimeouts env (s.nSda + 1) (checkScript ((addr ||| wr) % 256)) = 0 →
      ∃ st, i2c_CheckDevice env wr addr s = some (0, st) ∧
        calls (st.trace.drop s.trace.length) =
          (checkScript ((addr ||| wr) % 256)).map Step.prim ∧
        Framed (st.trace.drop s.trace.length) ∧
        starts (st.trace.drop s.trace.length) = 1 ∧ st.sda = true ∧ st.scl = true) ∧
    (scriptTimeouts env s.nSda (writeByteScript address data_value) = 0 →
      ∃ st, I2C_WriteByte env address data_value s = some st ∧
        calls (st.trace.drop s.trace.length) =
          (writeByteScript address data_value).map Step.prim ∧
        Framed (st.trace.drop s.trace.length) ∧
        starts (st.trace.drop s.trace.length) = 1 ∧ st.sda = true ∧ st.scl = true) ∧
    (scriptTimeouts env s.nSda (readByteScript address) = 0 →
      ∃ v st, I2C_ReadByte env address s = some (v, st) ∧
        calls (st.trace.drop s.trace.length) = (readByteScript address).map Step.prim ∧
        Framed (st.trace.drop s.trace.length) ∧
        starts (st.trace.drop s.trace.length) = 2 ∧ st.sda = true ∧ st.scl = true) ∧
    (scriptTimeouts env s.nSda (writeBytesScript dev reg n data) = 0 →
      ∃ st, I2C_WriteBytes env dev reg n data s = some (1, st) ∧
        calls (st.trace.drop s.trace.length) =
          (writeBytesScript dev reg n data).map Step.prim ∧
        Framed (st.trace.drop s.trace.length) ∧
        starts (st.trace.drop s.trace.length) = 1 ∧ st.sda = true ∧ st.scl = true) ∧
    (scriptTimeouts env s.nSda (readBytesScript dev reg n) = 0 →
      ∃ st buf', I2C_ReadBytes env dev reg n buf s = some (n, st, buf') ∧
        calls (st.trace.drop s.trace.length) = (readBytesScript dev reg n).map Step.prim ∧
        Framed (st.trace.drop s.trace.length) ∧
        starts (st.trace.drop s.trace.length) = 2 ∧ st.sda = true ∧ st.scl = true) := by
  refine ⟨?_, ?_, ?_, ?_, ?_⟩
  · intro hsda hscl hto
    have hack : ackResult (ackOutcome env (s.nSda + 1)) = 0 := by
      cases ho : ackOutcome env (s.nSda + 1) with
      | some k => rfl
      | none =>
        simp [checkScript, scriptTimeouts, stepTimesOut, stepSamples, ho] at hto
    have hres := i2c_CheckDevice_idle_script env wr addr s hsda hscl
    rw [hack] at hres
    refine ⟨_, hres, ?_, ?_, ?_, rfl, rfl⟩
    · simp only [drop_old_trace, (reads_first _ _ _).1]
      exact calls_scriptEvents_of_no_timeout env _ _ hto
    · have hf := framed_scriptEvents env (s.nSda + 1)
        [Step.send ((addr ||| wr) % 256), Step.ack] rfl hto
      simp only [drop_old_trace, Framed, (reads_first _ _ _).1, (reads_first _ _ _).2.1]
      exact hf
    · simp only [drop_old_trace, (reads_first _ _ _).2.2, starts_scriptEvents]
      rfl
  · intro hto
    refine ⟨_, I2C_WriteByte_script env address data_value s, ?_, ?_, ?_, rfl, rfl⟩
    · simp only [drop_old_trace]
      exact calls_scriptEvents_of_no_timeout env _ _ hto
    · simp only [drop_old_trace]
      exact framed_scriptEvents env s.nSda
        [Step.send 0xa0, Step.ack, Step.send address, Step.ack, Step.send data_value, Step.ack]
        rfl hto
    · simp only [drop_old_trace, starts_scriptEvents]
      rfl
  · intro hto
    refine ⟨_, _, I2C_ReadByte_script env address s, ?_, ?_, ?_, rfl, rfl⟩
    · simp only [drop_old_trace]
      exact calls_scriptEvents_of_no_timeout env _ _ hto
    · simp only [drop_old_trace]
      exact framed_scriptEvents env s.nSda
        [Step.send 0xa0, Step.ack, Step.send address, Step.ack,
         Step.start, Step.send 0xa1, Step.ack, Step.recv, Step.nack]
        rfl hto
    · simp only [drop_old_trace, starts_scriptEvents]
      rfl
  · intro hto
    refine ⟨_, I2C_WriteBytes_script env dev reg n data s hn, ?_, ?_, ?_, rfl, rfl⟩
    · simp only [drop_old_trace]
      exact calls_scriptEvents_of_no_timeout env _ _ hto
    · simp only [drop_old_trace]
      have hstop : ([Step.send dev, Step.ack, Step.send reg, Step.ack]
          ++ writeLoopScript data n 0).countP Step.isStop = 0 := by
        rw [List.countP_append, (writeLoopScript_acks data n 0).2.1]
        rfl
      exact framed_scriptEvents env s.nSda _ hstop hto
    · simp only [drop_old_trace, starts_scriptEvents, (writeBytesScript_counts dev reg n data).2.1]
  · intro hto
    refine ⟨_, _, I2C_ReadBytes_script env dev reg n buf s hn, ?_, ?_, ?_, rfl, rfl⟩
    · simp only [drop_old_trace]
      exact calls_scriptEvents_of_no_timeout env _ _ hto
    · simp only [drop_old_trace]
      have hstop : ([Step.send dev, Step.ack, Step.send reg, Step.ack,
          Step.start, Step.send ((dev + 1) % 256), Step.ack]
          ++ readLoopScript n).countP Step.isStop = 0 := by
        rw [List.countP_append, (readLoopScript_no_start_stop n).1]
        rfl
      exact framed_scriptEvents env s.nSda _ hstop hto
    · simp only [drop_old_trace, starts_scriptEvents, (readBytesScript_counts dev reg n).2]

/-- Witness for C15: a write of one byte and a read of three bytes with every
acknowledge given at once. -/
theorem C15_transaction_framing_witness :
    (∃ st, I2C_WriteByte ⟨fun _ => false, fun _ => true⟩ 0x10 0x55 ⟨true, true, 0, 0, []⟩
        = some st ∧ Framed st.trace ∧ st.sda = true ∧ st.scl = true) ∧
    (∃ st buf', I2C_ReadBytes readExampleEnv 0xA0 0x10 3 (fun _ => 0) ⟨true, true, 0, 0, []⟩
        = some (3, st, buf') ∧ Framed st.trace ∧ st.sda = true ∧ st.scl = true) := by
  constructor
  · obtain ⟨st, hres, _, hf, _, h1, h2⟩ :=
      (C15_transaction_framing ⟨fun _ => false, fun _ => true⟩ 0 0xA0 0x10 0x55 0xA0 0x10 3
        (fun _ => 0) (fun _ => 0) ⟨true, true, 0, 0, []⟩ (by decide)).2.1 (by decide)
    exact ⟨st, hres, hf, h1, h2⟩
  · obtain ⟨st, buf', hres, _, hf, _, h1, h2⟩ :=
      (C15_transaction_framing readExampleEnv 0 0xA0 0x10 0x55 0xA0 0x10 3
        (fun _ => 0) (fun _ => 0) ⟨true, true, 0, 0, []⟩ (by decide)).2.2.2.2 (by decide)
    exact ⟨st, buf', hres, hf, h1, h2⟩

/-- C20 (STOP count on the failure path): `Slave_ACK` returns 1 exactly when its
wait times out, that is when the next 251 samples of SDA read high.  In every
run of `I2C_WriteByte`, `I2C_ReadByte`, `I2C_WriteBytes`, `I2C_ReadBytes` (length
below 256) and of `i2c_CheckDevice` on a bus that reads idle, the number of
entries into `i2c_Stop` is 1 plus the number of acknowledge waits that timed
out.  In particular `i2c_CheckDevice` on an idle bus with an absent device
enters `i2c_Stop` exactly twice, and `I2C_WriteBytes` with length `n` on a line
that always reads high enters it exactly `n + 3` times and `i2c_Start` once. -/
theorem C20_stop_count (env : Env) (wr addr address data_value dev reg n : Nat)
    (data buf : Buf) (s : Bus) (hn : n < 256) :
    (∀ b : Bus, ∃ st, Slave_ACK env b =
      some ((if (ackOutcome env b.nSda).isNone then 1 else 0), st)) ∧
    (∀ m, ackOutcome env m = none ↔ ∀ k, k < 251 → env.sdaIn (m + k) = true) ∧
    (env.sdaIn s.nSda = true → env.sclIn s.nScl = true →
      ∃ r st, i2c_CheckDevice env wr addr s = some (r, st) ∧
        stops (st.trace.drop s.trace.length) =
          1 + scriptTimeouts env (s.nSda + 1) (checkScript ((addr ||| wr) % 256))) ∧
    (∃ st, I2C_WriteByte env address data_value s = some st ∧
      stops (st.trace.drop s.trace.length) =
        1 + scriptTimeouts env s.nSda (writeByteScript address data_value)) ∧
    (∃ v st, I2C_ReadByte env address s = some (v, st) ∧
      stops (st.trace.drop s.trace.length) =
        1 + scriptTimeouts env s.nSda (readByteScript address)) ∧
    (∃ st, I2C_WriteBytes env dev reg n data s = some (1, st) ∧
      stops (st.trace.drop s.trace.length) =
        1 + scriptTimeouts env s.nSda (writeBytesScript dev reg n data)) ∧
    (∃ st buf', I2C_ReadBytes env dev reg n buf s = some (n, st, buf') ∧
      stops (st.trace.drop s.trace.length) =
        1 + scriptTimeouts env s.nSda (readBytesScript dev reg n)) ∧
    (env.sdaIn s.nSda = true → env.sclIn s.nScl = true →
      (∀ k, k < 251 → env.sdaIn (s.nSda + 1 + k) = true) →
      ∃ st, i2c_CheckDevice env wr addr s = some (1, st) ∧
        stops (st.trace.drop s.trace.length) = 2) ∧
    ((∀ k, env.sdaIn k = true) →
      ∃ st, I2C_WriteBytes env dev reg n data s = some (1, st) ∧
        stops (st.trace.drop s.trace.length) = n + 3 ∧
        starts (st.trace.drop s.trace.length) = 1) := by
  refine ⟨?_, ackOutcome_eq_none_iff env, ?_, ?_, ?_, ?_, ?_, ?_, ?_⟩
  · intro b
    refine ⟨ackDone (ackOutcome env b.nSda) b, ?_⟩
    rw [Slave_ACK_eq]
    cases ackOutcome env b.nSda <;> rfl
  · intro hsda hscl
    refine ⟨_, _, i2c_CheckDevice_idle_script env wr addr s hsda hscl, ?_⟩
    simp only [drop_old_trace, (reads_first _ _ _).2.1, stops_scriptEvents]
    rfl
  · refine ⟨_, I2C_WriteByte_script env address data_value s, ?_⟩
    simp only [drop_old_trace, stops_scriptEvents]
    rfl
  · refine ⟨_, _, I2C_ReadByte_script env address s, ?_⟩
    simp only [drop_old_trace, stops_scriptEvents]
    rfl
  · refine ⟨_, I2C_WriteBytes_script env dev reg n data s hn, ?_⟩
    simp only [drop_old_trace, stops_scriptEvents, (writeBytesScript_counts dev reg n data).1]
  · refine ⟨_, _, I2C_ReadBytes_script env dev reg n buf s hn, ?_⟩
    simp only [drop_old_trace, stops_scriptEvents, (readBytesScript_counts dev reg n).1]
  · intro hsda hscl habs
    have hnone : ackOutcome env (s.nSda + 1) = none :=
      (ackOutcome_eq_none_iff env (s.nSda + 1)).2 habs
    have hres := i2c_CheckDevice_idle_script env wr addr s hsda hscl
    rw [hnone] at hres
    refine ⟨_, hres, ?_⟩
    simp only [drop_old_trace, (reads_first _ _ _).2.1, stops_scriptEvents]
    simp [checkScript, scriptTimeouts, stepTimesOut, stepSamples, hnone, Step.isStop]
  · intro hhigh
    refine ⟨_, I2C_WriteBytes_script env dev reg n data s hn, ?_, ?_⟩
    · simp only [drop_old_trace, stops_scriptEvents, scriptTimeouts_all_high env hhigh,
        (writeBytesScript_counts dev reg n data).1, (writeBytesScript_counts dev reg n data).2.2]
      omega
    · simp only [drop_old_trace, starts_scriptEvents,
        (writeBytesScript_counts dev reg n data).2.1]

/-- Witness for C20: three bytes written on a line that always reads high. -/
theorem C20_stop_count_witness :
    ∃ st, I2C_WriteBytes ⟨fun _ => true, fun _ => true⟩ 0xA0 0x10 3
        (fun i => [0x11, 0x22, 0x33].getD i 0) ⟨true, true, 0, 0, []⟩ = some (1, st) ∧
      stops st.trace = 6 ∧ starts st.trace = 1 :=
  (C20_stop_count ⟨fun _ => true, fun _ => true⟩ 0 0xA0 0x10 0x55 0xA0 0x10 3
    (fun i => [0x11, 0x22, 0x33].getD i 0) (fun _ => 0) ⟨true, true, 0, 0, []⟩
    (by decide)).2.2.2.2.2.2.2.2 (fun _ => rfl)

/-- C14 (multi-byte round trip): for every `dev`, `reg` and bytes `data[0..n-1]`
(all bytes, `n` below 256), `I2C_WriteBytes dev reg n data` followed at once by
`I2C_ReadBytes dev reg n buf` returns; and when every sample of SDA taken in the
two transactions is the level a simulated peripheral puts on the wire (one that
starts at rest, acknowledges every byte, answers on `dev` and on `dev + 1`,
stores written bytes at consecutive registers from `reg` and sends them back from
`reg` on a read), the read leaves `buf[i] = data[i]` for every `i < n`. -/
theorem C14_write_read_round_trip (env : Env) (dev reg n : Nat) (data buf : Buf) (s : Bus)
    (ptr0 : Nat) (mem0 : Nat → Nat) (hn : n < 256) (hdev : dev < 256) (hreg : reg < 256)
    (hdata : ∀ i, i < n → data i < 256) :
    ∃ s1 st buf', I2C_WriteBytes env dev reg n data s = some (1, s1) ∧
      I2C_ReadBytes env dev reg n buf s1 = some (n, st, buf') ∧
      (consistent dev (periphIdle s ptr0 mem0) (st.trace.drop s.trace.length) = true →
        ∀ i, i < n → buf' i = data i) := by
  refine ⟨_, _, _, I2C_WriteBytes_script env dev reg n data s hn,
    I2C_ReadBytes_script env dev reg n buf _ hn, ?_⟩
  intro hc i hi
  simp only [List.append_assoc, drop_old_trace, periphIdle] at hc
  rw [consistent_append, Bool.and_eq_true] at hc
  obtain ⟨hw, hr⟩ := hc
  obtain ⟨hp, hs⟩ := write_consistent dev reg n env data hdev hreg hdata _ _ _ _ _ hw
  rw [hp] at hr
  obtain ⟨h3, hval⟩ := read_consistent dev reg n env hdev hreg _ _ _ _ _ hr
  have hmem : writeMem data n 0 reg mem0 (reg + i) = data i := by
    simpa using writeMem_apply data n 0 reg mem0 i hi
  have hrx := hval i hi (by rw [hmem]; exact hdata i hi)
  rw [hmem] at hrx
  simp only []
  rw [readLoopData_apply, if_pos (by omega), h3, Nat.sub_zero]
  exact hrx

/-- Witness for C14: 0x11, 0x22, 0x33 written at register 0x10 of device 0xA0 and
read back against the simulated peripheral. -/
theorem C14_write_read_round_trip_witness :
    ∃ s1 st buf',
      I2C_WriteBytes roundTripEnv 0xA0 0x10 3 (fun i => [0x11, 0x22, 0x33].getD i 0)
        ⟨true, true, 0, 0, []⟩ = some (1, s1) ∧
      I2C_ReadBytes roundTripEnv 0xA0 0x10 3 (fun _ => 0) s1 = some (3, st, buf') ∧
      consistent 0xA0 (periphIdle ⟨true, true, 0, 0, []⟩ 0 (fun _ => 0)) st.trace = true ∧
      buf' 0 = 0x11 ∧ buf' 1 = 0x22 ∧ buf' 2 = 0x33 := by
  obtain ⟨s1, st, buf', hw, hr, himp⟩ :=
    C14_write_read_round_trip roundTripEnv 0xA0 0x10 3 (fun i => [0x11, 0x22, 0x33].getD i 0)
      (fun _ => 0) ⟨true, true, 0, 0, []⟩ 0 (fun _ => 0) (by decide) (by decide) (by decide)
      (by decide)
  have hw' := hw
  rw [I2C_WriteBytes_script _ _ _ _ _ _ (by decide)] at hw'
  simp only [Option.some.injEq, Prod.mk.injEq, true_and] at hw'
  subst hw'
  have hr' := hr
  rw [I2C_ReadBytes_script _ _ _ _ _ _ (by decide)] at hr'
  simp only [Option.some.injEq, Prod.mk.injEq, true_and] at hr'
  obtain ⟨hst, -⟩ := hr'
  have hev : consistent 0xA0 (periphIdle ⟨true, true, 0, 0, []⟩ 0 (fun _ => 0)) st.trace
      = true := by
    rw [← hst]
    decide!
  have hval := himp hev
  exact ⟨_, st, buf', hw, hr, hev, hval 0 (by decide), hval 1 (by decide), hval 2 (by decide)⟩

end SimI2C
